import Mathlib

/-!
Verification development for the Budget-Manager command/data core
(`budget_app`: `parser_utils.py`, `validation_utils.py`, `budget.py`,
`calculations.py`, `main.py`).

The Python code is shallowly embedded:
* Python dict records become the `PyRecord` structure (only the keys the
  code touches are modelled; a missing key is `none`).
* Python values stored in those dicts are modelled by `Value`
  (an `int`, a `str`, or `None`).
* raising is modelled by returning `Except PyExn _` or by a
  `_ × Option PyExn` post-state pair for in-place mutating functions.
* CPython builtins used by the code (`str.split`, `str.strip`,
  `str.lower`, `int(...)`, `float(...)`, `str(...)`) are modelled on
  `List Char` for the ASCII inputs this application works with; the
  binary64 rounding performed by `float(...)` is modelled exactly with
  integer arithmetic (round-to-nearest, ties-to-even, overflow at 2^1024).
-/

set_option maxRecDepth 100000

namespace BudgetApp

/-- A Python value as stored in this app's record dicts: an `int`,
a `str`, or `None`. -/
inductive Value where
  | VInt (n : Int)
  | VStr (s : String)
  | VNone
deriving DecidableEq, Repr

/-- A monthly-record dict.  The code only ever touches the keys
`"month"`, `"salary"`, `"expenses"`; `none` models an absent key. -/
structure PyRecord where
  month : Option Value
  salary : Option Value
  expenses : Option Value
deriving DecidableEq, Repr

/-- The in-memory budget dataset (`data` throughout `budget.py` /
`main.py` after a successful load): the keys `"monthly_records"` and
`"bank_balance"` are present. -/
structure BudgetData where
  monthly_records : List PyRecord
  bank_balance : Value
deriving DecidableEq, Repr

/-- The top-level dict as parsed from the JSON file, before `load_data`
has normalized it: each of the keys `"monthly_records"`,
`"bank_balance"`, `"current_balance"` may be absent. -/
structure RawData where
  monthly_records : Option (List PyRecord)
  bank_balance : Option Value
  current_balance : Option Value
deriving DecidableEq, Repr

/-- The Python exception classes that can escape the modelled code. -/
inductive PyExn where
  | valueError
  | overflowError
  | keyError
  | attributeError
deriving DecidableEq, Repr

/-! ### Character classes and string primitives -/

/-- ASCII decimal digit (`\d` on the inputs this app handles). -/
def isDigitChar (c : Char) : Bool :=
  decide (48 ≤ c.toNat ∧ c.toNat ≤ 57)

/-- ASCII whitespace, the characters `str.split()` / `str.strip()` /
`float()` / `int()` treat as whitespace in this app's input alphabet
(space, tab, newline, carriage return, vertical tab, form feed). -/
def isSpaceChar (c : Char) : Bool :=
  decide (c.toNat = 32 ∨ c.toNat = 9 ∨ c.toNat = 10 ∨ c.toNat = 13 ∨
          c.toNat = 11 ∨ c.toNat = 12)

/-- ASCII word character, `\w` for the inputs this app handles
(used for the `\b` in `^bank\b`). -/
def isWordChar (c : Char) : Bool :=
  decide ((48 ≤ c.toNat ∧ c.toNat ≤ 57) ∨ (65 ≤ c.toNat ∧ c.toNat ≤ 90) ∨
          (97 ≤ c.toNat ∧ c.toNat ≤ 122) ∨ c.toNat = 95)

/-- Model of `str.lower` on one character (ASCII case mapping, as CPython
performs on the ASCII letters this app compares). -/
def lowerChar (c : Char) : Char :=
  if 65 ≤ c.toNat ∧ c.toNat ≤ 90 then Char.ofNat (c.toNat + 32) else c

/-- Model of `str.lower` on a whole string. -/
def lowerList (l : List Char) : List Char :=
  l.map lowerChar

/-- Model of `str.strip()`: drop whitespace from both ends. -/
def stripWs (l : List Char) : List Char :=
  ((l.dropWhile isSpaceChar).reverse.dropWhile isSpaceChar).reverse

/-- Model of `str.strip()` at `String` type. -/
def pyStrip (s : String) : String :=
  String.mk (stripWs s.toList)

/-- One step of `' '.join(s.split())`: `sawWord` records whether a word
character has been emitted, `pending` whether whitespace has been seen
since (so a single separating space is due before the next word). -/
def collapseAux : Bool → Bool → List Char → List Char
  | _, _, [] => []
  | sawWord, pending, c :: cs =>
    if isSpaceChar c then collapseAux sawWord sawWord cs
    else (if pending then [' ', c] else [c]) ++ collapseAux true false cs

/-- Model of `' '.join(s.split()).strip()` — the whitespace collapsing
`parse_command` performs first: internal whitespace runs become single
spaces, ends are trimmed. -/
def collapse (l : List Char) : List Char :=
  collapseAux false false l

/-- Model of `str.split(sep)` for a one-character separator `sep`. -/
def splitOnChar (sep : Char) (l : List Char) : List (List Char) :=
  l.foldr
    (fun c acc =>
      match acc with
      | [] => [[c]]
      | g :: gs => if c = sep then [] :: g :: gs else (c :: g) :: gs)
    [[]]

/-! ### Decimal digits: values, printing, parsing -/

/-- Value of a decimal digit character. -/
def digitVal (c : Char) : Nat := c.toNat - 48

/-- The numeric value of a digit string, most significant digit first. -/
def natOfDigits (l : List Char) : Nat :=
  l.foldl (fun acc c => 10 * acc + digitVal c) 0

/-- The digit character for `d < 10`. -/
def digitChar (d : Nat) : Char := Char.ofNat (48 + d)

/-- Base-10 digits of `m`, least significant first; `fuel ≥ m`
suffices (the recursion actually stops after one step per digit). -/
def digitsRevFuel : Nat → Nat → List Nat
  | 0, _ => []
  | fuel + 1, m => if m = 0 then [] else m % 10 :: digitsRevFuel fuel (m / 10)

/-- The decimal digit characters of `n` (`str(n)` for `n : Nat`). -/
def natToChars (n : Nat) : List Char :=
  if n = 0 then ['0'] else ((digitsRevFuel n n).map digitChar).reverse

/-- Model of `str(n)` for a Python int `n`. -/
def intToString (n : Int) : String :=
  if n < 0 then String.mk ('-' :: natToChars n.natAbs) else String.mk (natToChars n.toNat)

/-- Model of `str(v)` for the `Value`s this app serializes. -/
def pyStrOfValue : Value → String
  | .VInt n => intToString n
  | .VStr s => s
  | .VNone => "None"

/-- Tail of a valid Python integer-literal digit group: what may follow
the leading digit of `\d(_?\d)*` (digits, with single underscores only
between digits — PEP 515). -/
def vgRest : List Char → Bool
  | [] => true
  | c :: rest =>
    if c = '_' then
      match rest with
      | [] => false
      | d :: r2 => isDigitChar d && vgRest r2
    else isDigitChar c && vgRest rest

/-- A valid digit group `\d(_?\d)*` as accepted inside CPython's
`int()`/`float()` string conversions. -/
def validGroup : List Char → Bool
  | [] => false
  | c :: rest => isDigitChar c && vgRest rest

/-- The numeric value of a digit group (underscores removed). -/
def groupVal (l : List Char) : Nat :=
  natOfDigits (l.filter (fun c => ¬ c = '_'))

/-- Model of `int(s)` for a Python `str` `s`: optional surrounding whitespace,
optional sign, digit group.  `none` models the `ValueError` CPython
raises otherwise. -/
def pyIntOfChars (l : List Char) : Option Int :=
  let t := stripWs l
  if t.head? = some '+' then
    if validGroup t.tail then some (groupVal t.tail : Int) else none
  else if t.head? = some '-' then
    if validGroup t.tail then some (-(groupVal t.tail : Int)) else none
  else if validGroup t then some (groupVal t : Int) else none

/-- Model of `int(v)` for a stored `Value`: an `int` is returned unchanged, a
`str` is parsed, `None` raises `TypeError` (modelled as `none`, since
every call site catches `(ValueError, TypeError)` together). -/
def pyIntOfValue : Value → Option Int
  | .VInt n => some n
  | .VStr s => pyIntOfChars s.toList
  | .VNone => none

/-! ### The binary64 model behind `float(...)` / `int(float(...))`

`ensure_valid_financial_input` routes every amount through
`int(float(value))`.  `float` of a string (or int) produces the IEEE-754
binary64 nearest to the denoted rational value (round-to-nearest,
ties-to-even; overflow at 2^1024), and `int` truncates that double toward
zero.  The rounding is modelled exactly with integer arithmetic: a
finite double is kept as a mantissa/exponent pair `m * 2^p`. -/

/-- Computes `2 ^ n` by structural recursion (kept first-order so that concrete
evaluations reduce inside the kernel). -/
def twoPow : Nat → Nat
  | 0 => 1
  | n + 1 => 2 * twoPow n

/-- Computes `10 ^ n`, likewise structural. -/
def tenPow : Nat → Nat
  | 0 => 1
  | n + 1 => 10 * tenPow n

/-- A CPython `float`: a finite binary64 written `(-1)^neg * m * 2^p`
(with the `m`, `p` produced by the rounding below), an infinity, or NaN. -/
inductive PyFloat where
  | fin (neg : Bool) (m : Nat) (p : Int)
  | inf (neg : Bool)
  | nan
deriving DecidableEq, Repr

/-- Binary logarithm search for `den ≤ num`: the exponent `e` with
`den * 2^e ≤ num < den * 2^(e+1)`.  Any `fuel` with `num < den * 2^fuel`
suffices. -/
def expUp : Nat → Nat → Nat → Nat
  | 0, _, _ => 0
  | fuel + 1, num, den => if num < 2 * den then 0 else expUp fuel num (2 * den) + 1

/-- Binary logarithm search for `num < den`: the least `j ≥ 1` with
`den ≤ num * 2^j` (so the value `num/den` lies in `[2^(-j), 2^(-j+1))`). -/
def expDn : Nat → Nat → Nat → Nat
  | 0, _, _ => 1
  | fuel + 1, num, den => if den ≤ 2 * num then 1 else expDn fuel (2 * num) den + 1

/-- Round `num / den` (with `den ≠ 0`) to the nearest integer, ties to
even. -/
def roundScaled (num den : Nat) : Nat :=
  if 2 * (num % den) < den then num / den
  else if den < 2 * (num % den) then num / den + 1
  else if (num / den) % 2 = 0 then num / den else num / den + 1

/-- The binary exponent of `num / den > 0`: the `e` with
`2^e ≤ num/den < 2^(e+1)`. -/
def roundExponent (num den : Nat) : Int :=
  if den ≤ num then (expUp num num den : Int) else -((expDn den num den : Int))

/-- The exponent of the least significant bit of the binary64 nearest
to `num / den`: 52 bits below the leading bit for normal numbers,
clamped to `-1074` in the subnormal range. -/
def roundPrec (num den : Nat) : Int :=
  if -1022 ≤ roundExponent num den then roundExponent num den - 52 else -1074

/-- The rounded mantissa of `num / den` at precision `roundPrec`. -/
def roundMantissa (num den : Nat) : Nat :=
  if 0 ≤ roundPrec num den then
    roundScaled num (den * twoPow (roundPrec num den).toNat)
  else roundScaled (num * twoPow (-(roundPrec num den)).toNat) den

/-- Round the non-negative rational `num / den` (with `den ≠ 0`) to the
nearest binary64, ties to even, applying the sign `neg` at the end;
results at or beyond `2^1024` become infinities. -/
def roundMag (neg : Bool) (num den : Nat) : PyFloat :=
  if num = 0 then .fin neg 0 0
  else
    let p : Int := roundPrec num den
    let m : Nat := roundMantissa num den
    let over : Bool :=
      if 0 ≤ p then decide (twoPow 1024 ≤ m * twoPow p.toNat)
      else decide (twoPow (1024 + (-p).toNat) ≤ m)
    if over then .inf neg else .fin neg m p

/-- Model of `float(s)` for a Python `str` `s`: optional surrounding whitespace
and sign; `inf`/`infinity`/`nan` (case-insensitive); otherwise the
decimal grammar `digits [. digits] [e [sign] digits]` (underscores as in
PEP 515), whose exact rational value is then rounded to binary64.
`none` models the `ValueError` raised on anything else. -/
def pyFloatOfChars (l : List Char) : Option PyFloat :=
  let t := stripWs l
  let neg : Bool := t.head? = some '-'
  let body : List Char :=
    if t.head? = some '+' ∨ t.head? = some '-' then t.tail else t
  let lb := lowerList body
  if lb = "inf".toList ∨ lb = "infinity".toList then some (.inf neg)
  else if lb = "nan".toList then some .nan
  else
    let mant := body.takeWhile fun c => ¬ (c = 'e' ∨ c = 'E')
    let erest := body.dropWhile fun c => ¬ (c = 'e' ∨ c = 'E')
    let ip := mant.takeWhile fun c => ¬ c = '.'
    let drest := mant.dropWhile fun c => ¬ c = '.'
    let fp := drest.tail
    let eOk : Bool × Bool × Nat :=
      if erest.isEmpty then (true, false, 0)
      else
        let er := erest.tail
        let esgn : Bool := er.head? = some '-'
        let eb : List Char :=
          if er.head? = some '+' ∨ er.head? = some '-' then er.tail else er
        (validGroup eb, esgn, groupVal eb)
    if (ip.isEmpty || validGroup ip) && (fp.isEmpty || validGroup fp) &&
       !(ip.isEmpty && fp.isEmpty) && eOk.1 then
      let fpd := fp.filter fun c => ¬ c = '_'
      let mantNum : Nat := groupVal ip * tenPow fpd.length + natOfDigits fpd
      let nd : Nat × Nat :=
        if eOk.2.1 then (mantNum, tenPow fpd.length * tenPow eOk.2.2)
        else (mantNum * tenPow eOk.2.2, tenPow fpd.length)
      some (roundMag neg nd.1 nd.2)
    else none

/-- Model of `int(f)` for a CPython float `f`: truncation toward zero; `nan`
raises `ValueError`, infinities raise `OverflowError`. -/
def pyIntOfFloat : PyFloat → Except PyExn Int
  | .nan => .error .valueError
  | .inf _ => .error .overflowError
  | .fin neg m p =>
    let mag : Nat := if 0 ≤ p then m * twoPow p.toNat else m / twoPow (-p).toNat
    .ok (if neg then -(mag : Int) else (mag : Int))

/-- Model of `value.replace(",", "").replace(" ", "")` — the cleaning
`ensure_valid_financial_input` applies to string input (only the comma
and the plain space character are removed). -/
def cleanAmount (l : List Char) : List Char :=
  (l.filter fun c => ¬ c = ',').filter fun c => ¬ c = ' '

/-- Model of `validation_utils.ensure_valid_financial_input` on a `str` argument:
clean, `int(float(...))`, reject negatives.  A `ValueError` anywhere in
the `try` block is caught and re-raised as `ValueError`; the
`OverflowError` from `int(inf)` is *not* caught by
`except (ValueError, TypeError)` and escapes. -/
def ensure_valid_financial_input (l : List Char) : Except PyExn Int :=
  match pyFloatOfChars (cleanAmount l) with
  | none => .error .valueError
  | some f =>
    match pyIntOfFloat f with
    | .error e => .error e
    | .ok t => if t < 0 then .error .valueError else .ok t

/-- Model of `ensure_valid_financial_input` on an `int` argument (as called from
`add_monthly_record` / `update_bank_balance`): no cleaning applies,
`float(n)` rounds the integer (raising `OverflowError` outside the
binary64 range — uncaught, as above), `int(...)` truncates back. -/
def ensureValidFinancialInputInt (n : Int) : Except PyExn Int :=
  match roundMag (decide (n < 0)) n.natAbs 1 with
  | .inf _ => .error .overflowError
  | .nan => .error .valueError
  | .fin neg m p =>
    match pyIntOfFloat (.fin neg m p) with
    | .error e => .error e
    | .ok t => if t < 0 then .error .valueError else .ok t

/-! ### Month validators (`validation_utils.py`) -/

/-- A digit in `[1-9]`. -/
def isNonzeroDigit (c : Char) : Bool :=
  isDigitChar c && ¬ c = '0'

/-- Python's `$` anchor matches at the end of the string and also just
before one newline that ends the string (`re.match(r"...$", "03/25\n")`
succeeds): strip that one final newline, so the anchored month patterns
below see exactly what `re.match` sees. -/
def chopFinalNewline (l : List Char) : List Char :=
  match l.reverse with
  | c :: rest => if c = '\n' then rest.reverse else l
  | [] => l

/-- The five-character body `(0[1-9]|1[0-2])/\d{2}` of the strict month
pattern: month 01-12, slash, two digits. -/
def mmyyCore : List Char → Bool
  | [a, b, sep, y1, y2] =>
    ((a = '0' && isNonzeroDigit b) || (a = '1' && (b = '0' || b = '1' || b = '2'))) &&
    sep = '/' && isDigitChar y1 && isDigitChar y2
  | _ => false

/-- Model of `validation_utils.ensure_valid_month_format`: the strict
pattern `^(0[1-9]|1[0-2])/\d{2}$`, whose final `$` also tolerates one
trailing newline — so the source accepts `"03/25\n"` as well as
`"03/25"`. -/
def ensure_valid_month_format (s : String) : Bool :=
  mmyyCore (chopFinalNewline s.toList)

/-- The body `([1-9]|0[1-9]|1[0-2])[/.]\d{2}` shared by the two lenient
month patterns. -/
def lenientCore : List Char → Bool
  | [a, sep, y1, y2] =>
    isNonzeroDigit a && (sep = '/' || sep = '.') && isDigitChar y1 && isDigitChar y2
  | [a, b, sep, y1, y2] =>
    ((a = '0' && isNonzeroDigit b) || (a = '1' && (b = '0' || b = '1' || b = '2'))) &&
    (sep = '/' || sep = '.') && isDigitChar y1 && isDigitChar y2
  | _ => false

/-- Model of `validation_utils.is_valid_month_format_lenient`: the
patterns `^([1-9]|0[1-9]|1[0-2])/\d{2}$` and
`^([1-9]|0[1-9]|1[0-2])\.\d{2}$`, with the same `$`-before-trailing-
newline tolerance as the strict validator.  (The parser only ever
applies it to whitespace-collapsed, hence newline-free, input.) -/
def is_valid_month_format_lenient (l : List Char) : Bool :=
  lenientCore (chopFinalNewline l)

/-- Model of `parser_utils.validate_month_format` (delegates to the lenient
validator). -/
def validate_month_format (l : List Char) : Bool :=
  is_valid_month_format_lenient l

/-- Model of `parser_utils.normalize_month_format`: split on `.` if present else
on `/`, zero-pad a single-digit month, rejoin with `/`.  (At its call
sites the regex guarantees exactly one separator, so the `parts[1]`
subscript cannot fail.) -/
def normalize_month_format (l : List Char) : String :=
  let parts := if l.contains '.' then splitOnChar '.' l else splitOnChar '/' l
  let mp := parts.headD []
  let yp := (parts.drop 1).headD []
  String.mk ((if mp.length = 1 then '0' :: mp else mp) ++ '/' :: yp)

/-! ### The command parser (`parser_utils.parse_command`) -/

/-- The result dict of `parse_command`, with its five keys. -/
structure CommandResult where
  command : Option String
  amount : Option Int
  month : Option String
  error : Option String
  menu_option : Option Int
deriving DecidableEq, Repr

/-- The freshly initialised result dict (all fields `None`). -/
def blankResult : CommandResult :=
  ⟨none, none, none, none, none⟩

/-- A result dict carrying only an error code. -/
def errorResult (code : String) : CommandResult :=
  { blankResult with error := some code }

/-- Model of `re.match(r'^add\s+(.+)$', u, re.IGNORECASE)`: on success, the
captured `<rest>` (everything after the first whitespace run). -/
def matchAdd (u : List Char) : Option (List Char) :=
  match u with
  | c1 :: c2 :: c3 :: rest =>
    if lowerChar c1 = 'a' ∧ lowerChar c2 = 'd' ∧ lowerChar c3 = 'd' ∧
       ¬ rest.takeWhile isSpaceChar = [] ∧ ¬ rest.dropWhile isSpaceChar = []
    then some (rest.dropWhile isSpaceChar) else none
  | _ => none

/-- Model of `re.match(r'^bank\s+(.+)$', u, re.IGNORECASE)`: on success, the
captured `<rest>`. -/
def matchBank (u : List Char) : Option (List Char) :=
  match u with
  | c1 :: c2 :: c3 :: c4 :: rest =>
    if lowerChar c1 = 'b' ∧ lowerChar c2 = 'a' ∧ lowerChar c3 = 'n' ∧ lowerChar c4 = 'k' ∧
       ¬ rest.takeWhile isSpaceChar = [] ∧ ¬ rest.dropWhile isSpaceChar = []
    then some (rest.dropWhile isSpaceChar) else none
  | _ => none

/-- Model of `re.match(r'^bank\b', u, re.IGNORECASE)`. -/
def bankWordProbe (u : List Char) : Bool :=
  match u with
  | c1 :: c2 :: c3 :: c4 :: rest =>
    lowerChar c1 = 'b' && lowerChar c2 = 'a' && lowerChar c3 = 'n' && lowerChar c4 = 'k' &&
    (match rest with
     | [] => true
     | c :: _ => ¬ isWordChar c)
  | _ => false

/-- The month token of the update pattern: `^[0-9]+[/\.]\d{2}$`. -/
def monthTokenOk (mt : List Char) : Bool :=
  match mt.reverse with
  | y2 :: y1 :: sep :: restRev =>
    isDigitChar y2 && isDigitChar y1 && (sep = '/' || sep = '.') &&
    ¬ restRev = [] && restRev.all isDigitChar
  | _ => false

/-- Model of `re.match(r'^([+\-])\s*(\d+)\s+([0-9]+[/\.]\d{2})$', u)`: on success,
whether the sign was `+`, the digit group, and the month token. -/
def matchUpdate (u : List Char) : Option (Bool × List Char × List Char) :=
  match u with
  | c :: rest =>
    if c = '+' ∨ c = '-' then
      let r1 := rest.dropWhile isSpaceChar
      let ds := r1.takeWhile isDigitChar
      let r2 := r1.dropWhile isDigitChar
      let sp := r2.takeWhile isSpaceChar
      let mt := r2.dropWhile isSpaceChar
      if ¬ ds = [] ∧ ¬ sp = [] ∧ monthTokenOk mt then some (c = '+', ds, mt) else none
    else none
  | [] => none

/-- The three malformed-sign probes
`^[+\-]\s*\d+$`, `^[+\-][^\d].*$`, `^[+\-].*\d+/\d+$`. -/
def malformedSign (u : List Char) : Bool :=
  match u with
  | c :: rest =>
    (c = '+' || c = '-') &&
    (let r1 := rest.dropWhile isSpaceChar
     (¬ r1 = [] && r1.all isDigitChar) ||
     (match rest with
      | c2 :: _ => ¬ isDigitChar c2
      | [] => false) ||
     (let dr := rest.reverse.takeWhile isDigitChar
      let rr := rest.reverse.dropWhile isDigitChar
      ¬ dr = [] && rr.head? = some '/' &&
      (match rr with
       | _ :: c3 :: _ => isDigitChar c3
       | _ => false)))
  | [] => false

/-- The non-recursive part of `parse_command`, applied to the collapsed
line `u` when it is non-empty, not all digits, and not an `add <rest>`
line: the `bank` branches, the update pattern, the malformed-sign
probes, and the keyword table. -/
def parseLeaf (u : List Char) : Except PyExn CommandResult :=
  match matchBank u with
  | some payload =>
    match ensure_valid_financial_input (stripWs payload) with
    | .ok a => .ok { blankResult with command := some "bank", amount := some a }
    | .error .valueError => .ok (errorResult "invalid_amount")
    | .error e => .error e
  | none =>
    if bankWordProbe u then .ok (errorResult "invalid_command")
    else
      match matchUpdate u with
      | some (isPlus, ds, mt) =>
        match ensure_valid_financial_input ds with
        | .error .valueError => .ok (errorResult "invalid_amount")
        | .error e => .error e
        | .ok a =>
          if validate_month_format mt then
            .ok ⟨some (if isPlus then "income" else "expense"), some a,
                 some (normalize_month_format mt), none, none⟩
          else .ok (errorResult "invalid_date")
      | none =>
        if malformedSign u then .ok (errorResult "invalid_command")
        else
          let lw := lowerList u
          if lw = [] ∨ lw = "save".toList ∨ lw = "return".toList ∨
             lw = "menu".toList ∨ lw = "main".toList then
            .ok { blankResult with command := some "menu" }
          else if lw = "exit".toList then .ok { blankResult with command := some "exit" }
          else if lw = "graph".toList then .ok { blankResult with command := some "graph" }
          else if lw = "view".toList then .ok { blankResult with command := some "view" }
          else if lw = "add".toList then .ok { blankResult with command := some "add" }
          else .ok (errorResult "invalid_command")

/-- The `add <rest>` branch acting on the nested parse's outcome: a
raised exception propagates, a nested miss or error becomes the outer
`invalid_command`, and a nested success is returned verbatim.
(`none`, fuel exhaustion, also propagates.) -/
def addGlue : Option (Except PyExn CommandResult) → Option (Except PyExn CommandResult)
  | none => none
  | some (.error e) => some (.error e)
  | some (.ok inner) =>
    if inner.command = none ∨ ¬ inner.error = none then
      some (.ok (errorResult "invalid_command"))
    else some (.ok inner)

/-- Model of `parse_command`, fuel-indexed so that the recursion of the
`add <rest>` branch is structural: `none` means the fuel ran out (never
happens for `fuel > length`, proved below). -/
def parseFuel : Nat → List Char → Option (Except PyExn CommandResult)
  | 0, _ => none
  | fuel + 1, l =>
    let u := collapse l
    if u.isEmpty then some (.ok { blankResult with command := some "menu" })
    else if u.all isDigitChar then
      some (.ok ⟨some "menu_option", none, none, none, some (natOfDigits u : Int)⟩)
    else
      match matchAdd u with
      | some payload => addGlue (parseFuel fuel payload)
      | none => some (parseLeaf u)

/-- Model of `parser_utils.parse_command`.  The fuel `length + 1` always
suffices (the recursive call strictly shrinks the input); the default is
never reached. -/
def parse_command (s : String) : Except PyExn CommandResult :=
  (parseFuel (s.toList.length + 1) s.toList).getD (.ok blankResult)

/-! ### Record store and calculations (`calculations.py`, `budget.py`) -/

/-- Model of `get_date_key` inside `calculations.sort_records_by_date`:
`record.get("month", "00/00")` split on `/` and read as two ints,
`(year, month)`; any `ValueError`/`AttributeError` yields `(0, 0)`. -/
def getDateKey (r : PyRecord) : Int × Int :=
  match r.month.getD (.VStr "00/00") with
  | .VStr s =>
    match splitOnChar '/' s.toList with
    | [a, b] =>
      match pyIntOfChars a, pyIntOfChars b with
      | some monthNum, some year => (year, monthNum)
      | _, _ => (0, 0)
    | _ => (0, 0)
  | _ => (0, 0)

/-- Python's tuple order on the `(year, month)` sort keys:
lexicographic. -/
def keyLe (x y : Int × Int) : Prop :=
  x.1 < y.1 ∨ (x.1 = y.1 ∧ x.2 ≤ y.2)

instance : DecidableRel keyLe := fun x y =>
  inferInstanceAs (Decidable (_ ∨ _))

/-- The record ordering used by `sort_records_by_date`. -/
def recLe (a b : PyRecord) : Prop :=
  keyLe (getDateKey a) (getDateKey b)

instance : DecidableRel recLe := fun a b =>
  inferInstanceAs (Decidable (keyLe _ _))

instance : IsTotal PyRecord recLe :=
  ⟨fun a b => by unfold recLe keyLe; omega⟩

instance : IsTrans PyRecord recLe :=
  ⟨fun a b c hab hbc => by unfold recLe keyLe at *; omega⟩

/-- Model of `calculations.sort_records_by_date`: Python's `sorted` is the stable
sort by `get_date_key`, which (extensionally) is insertion sort by
`recLe`. -/
def sort_records_by_date (records : List PyRecord) : List PyRecord :=
  List.insertionSort recLe records

/-- The search loop of `get_existing_data_for_month`: first record
whose stripped `"month"` equals the (already stripped) target;
`.strip()` on a non-`str` month value raises `AttributeError`. -/
def findMonthAux (m : String) : List PyRecord → Except PyExn (Option PyRecord)
  | [] => .ok none
  | r :: rs =>
    match r.month.getD (.VStr "") with
    | .VStr s => if pyStrip s = m then .ok (some r) else findMonthAux m rs
    | _ => .error .attributeError

/-- Model of `calculations.get_existing_data_for_month`. -/
def get_existing_data_for_month (d : BudgetData) (month : String) :
    Except PyExn (Option PyRecord) :=
  findMonthAux (pyStrip month) d.monthly_records

/-- Model of `record["month"] == month` inside the `add_monthly_record` loop:
comparing a non-`str` value with a `str` is `False`; a missing key
raises `KeyError`. -/
def monthKeyEq (v : Value) (month : String) : Bool :=
  match v with
  | .VStr s => s = month
  | _ => false

/-- The overwrite scan of `add_monthly_record`: `some l'` when a record
with this exact month was found and its field overwritten, `.ok none`
when the loop fell through. -/
def overwriteScan (month : String) (amount : Int) (isSalary : Bool) :
    List PyRecord → Except PyExn (Option (List PyRecord))
  | [] => .ok none
  | r :: rs =>
    match r.month with
    | none => .error .keyError
    | some v =>
      if monthKeyEq v month then
        .ok (some ((if isSalary then { r with salary := some (.VInt amount) }
                    else { r with expenses := some (.VInt amount) }) :: rs))
      else
        match overwriteScan month amount isSalary rs with
        | .error e => .error e
        | .ok none => .ok none
        | .ok (some rs') => .ok (some (r :: rs'))

/-- Model of `budget.add_monthly_record`, with the post-state of the (in-place
mutated) dataset paired with the exception that escaped, if any:
validate the amount and the strict month format first; then overwrite
the matching record's field, or append a new record and re-sort. -/
def add_monthly_record (d : BudgetData) (month : String) (amount : Int)
    (isSalary : Bool) : BudgetData × Option PyExn :=
  match ensureValidFinancialInputInt amount with
  | .error e => (d, some e)
  | .ok amount' =>
    if ensure_valid_month_format month then
      match overwriteScan month amount' isSalary d.monthly_records with
      | .error e => (d, some e)
      | .ok (some recs) => ({ d with monthly_records := recs }, none)
      | .ok none =>
        let newRec : PyRecord :=
          ⟨some (.VStr month), some (.VInt (if isSalary then amount' else 0)),
           some (.VInt (if isSalary then 0 else amount'))⟩
        ({ d with monthly_records :=
             sort_records_by_date (d.monthly_records ++ [newRec]) }, none)
    else (d, some .valueError)

/-- Model of `budget.update_bank_balance`: validate, then replace the balance. -/
def update_bank_balance (d : BudgetData) (balance : Int) :
    BudgetData × Option PyExn :=
  match ensureValidFinancialInputInt balance with
  | .error e => (d, some e)
  | .ok b => ({ d with bank_balance := .VInt b }, none)

/-- The generator scan inside `calculations.has_salary_data`: `any(...)`
evaluates records left to right and stops at the first positive value;
an `int()` failure raises out of the generator and the surrounding
`except (ValueError, TypeError)` returns `False`. -/
def salaryScan : List PyRecord → Bool
  | [] => false
  | r :: rs =>
    match pyIntOfValue (r.salary.getD (.VStr "0")) with
    | none => false
    | some n => if 0 < n then true else salaryScan rs

/-- Same scan for the `"expenses"` field. -/
def expenseScan : List PyRecord → Bool
  | [] => false
  | r :: rs =>
    match pyIntOfValue (r.expenses.getD (.VStr "0")) with
    | none => false
    | some n => if 0 < n then true else expenseScan rs

/-- Model of `calculations.has_salary_data`. -/
def has_salary_data (d : BudgetData) : Bool :=
  salaryScan d.monthly_records

/-- Model of `calculations.has_expense_data`. -/
def has_expense_data (d : BudgetData) : Bool :=
  expenseScan d.monthly_records

/-! ### Duplicate-month resolution (`main.handle_duplicate_month_entry`) -/

/-- The user-facing outcome of `handle_duplicate_month_entry`,
abstracting the formatted status message: the stored value after a
merge/overwrite, or an explicit no-change. -/
inductive DupOutcome where
  | merged (total : Int)
  | overwritten (amount : Int)
  | cancelled
deriving DecidableEq, Repr

/-- Model of `main.handle_duplicate_month_entry` with the user's (raw) choice
line passed in: look up the existing record, read the existing value
(`int(...)`, may raise), print the existing fields (each present field
goes through `int(...)`, may raise), then dispatch on the stripped
choice — `"1"` merges, `"2"` overwrites, anything else cancels. -/
def handle_duplicate_month_entry (d : BudgetData) (month : String)
    (amount : Int) (isIncome : Bool) (choice : String) :
    Except PyExn (BudgetData × DupOutcome) :=
  match get_existing_data_for_month d month with
  | .error e => .error e
  | .ok found =>
    let er : PyRecord := found.getD ⟨none, none, none⟩
    match pyIntOfValue ((if isIncome then er.salary else er.expenses).getD (.VStr "0")) with
    | none => .error .valueError
    | some existingValue =>
      if (match er.salary with
          | some v => (pyIntOfValue v).isNone
          | none => false) then .error .valueError
      else if (match er.expenses with
               | some v => (pyIntOfValue v).isNone
               | none => false) then .error .valueError
      else
          if pyStrip choice = "1" then
            match add_monthly_record d month (existingValue + amount) isIncome with
            | (d', none) => .ok (d', .merged (existingValue + amount))
            | (_, some e) => .error e
          else if pyStrip choice = "2" then
            match add_monthly_record d month amount isIncome with
            | (d', none) => .ok (d', .overwritten amount)
            | (_, some e) => .error e
          else .ok (d, .cancelled)

/-! ### Persistence (`validation_utils.validate_and_normalize_*`,
`budget.load_data` / `budget.save_data`) -/

/-- Model of `validation_utils.validate_and_normalize_record`: requires the
`"month"` key, coerces `"salary"`/`"expenses"` to `int` (absent fields
default to 0), raising `ValueError` on a non-coercible field. -/
def validate_and_normalize_record (r : PyRecord) : Except PyExn PyRecord :=
  if r.month = none then .error .valueError
  else
    match (match r.salary with
           | none => some 0
           | some v => pyIntOfValue v) with
    | none => .error .valueError
    | some s =>
      match (match r.expenses with
             | none => some 0
             | some v => pyIntOfValue v) with
      | none => .error .valueError
      | some e => .ok ⟨r.month, some (.VInt s), some (.VInt e)⟩

/-- Model of `validation_utils.validate_and_normalize_data`: default the record
list, coerce the bank balance (raising `ValueError` if present but
non-coercible), then normalize each record, dropping (with a warning)
any record that fails. -/
def validate_and_normalize_data (raw : RawData) : Except PyExn RawData :=
  let recs := raw.monthly_records.getD []
  match (match raw.bank_balance with
         | none => some 0
         | some v => pyIntOfValue v) with
  | none => .error .valueError
  | some b =>
    .ok ⟨some (recs.filterMap fun r => (validate_and_normalize_record r).toOption),
         some (.VInt b), raw.current_balance⟩

/-- The default dataset `budget.DEFAULT_DATA`. -/
def defaultData : RawData :=
  ⟨some [], some (.VInt 0), none⟩

/-- Model of `budget.load_data` from the point where the file exists and has
parsed as JSON (the dict `raw`): replace by the default when
`"monthly_records"` is missing, migrate the legacy `"current_balance"`
key, then normalize — but if normalization raises `ValueError`, return
the (merely migrated) data unchanged. -/
def loadDataParsed (raw : RawData) : RawData :=
  if raw.monthly_records = none then defaultData
  else
    let migrated : RawData :=
      if raw.current_balance ≠ none ∧ raw.bank_balance = none then
        ⟨raw.monthly_records, raw.current_balance, none⟩
      else if raw.bank_balance = none then
        ⟨raw.monthly_records, some (.VInt 0), raw.current_balance⟩
      else raw
    match validate_and_normalize_data migrated with
    | .ok nd => nd
    | .error _ => migrated

/-- The record stringification loop of `budget.save_data`:
`record["salary"] = str(record["salary"])` and likewise for
`"expenses"` (a missing key raises `KeyError`, caught below). -/
def serializeRecords : List PyRecord → Except PyExn (List PyRecord)
  | [] => .ok []
  | r :: rs =>
    match r.salary with
    | none => .error .keyError
    | some sv =>
      match r.expenses with
      | none => .error .keyError
      | some ev =>
        match serializeRecords rs with
        | .error e => .error e
        | .ok rest =>
          .ok (⟨r.month, some (.VStr (pyStrOfValue sv)),
                some (.VStr (pyStrOfValue ev))⟩ :: rest)

/-- Model of `budget.save_data`, modelled up to the JSON text: the dict that is
written to disk, or `none` when the blanket `except Exception` caught a
failure (the function then returns `False`). -/
def save_data (d : BudgetData) : Option RawData :=
  match serializeRecords d.monthly_records with
  | .error _ => none
  | .ok recs => some ⟨some recs, some d.bank_balance, none⟩

/-! ### Statement-level definitions -/

/-- One `add_monthly_record` call description: month, amount, is-salary. -/
def UpsertOp : Type := String × Int × Bool

/-- The post-state of one `add_monthly_record` call (on failure the
dataset is returned unchanged, matching the in-place semantics). -/
def applyUpsert (d : BudgetData) (op : UpsertOp) : BudgetData :=
  (add_monthly_record d op.1 op.2.1 op.2.2).1

/-- The post-state of a sequence of `add_monthly_record` calls. -/
def applyUpserts (d : BudgetData) (ops : List UpsertOp) : BudgetData :=
  ops.foldl applyUpsert d

/-- Model of `hasIncomeData` as the spec words it: some record's salary, coerced
to integer with 0 substituted on coercion failure, is strictly
positive.  (Stated for comparison with the source's `has_salary_data`.) -/
def hasIncomeDataSpec (d : BudgetData) : Bool :=
  d.monthly_records.any fun r =>
    decide (0 < (pyIntOfValue (r.salary.getD (.VStr "0"))).getD 0)

/-- Model of `hasExpenseData` as the spec words it. -/
def hasExpenseDataSpec (d : BudgetData) : Bool :=
  d.monthly_records.any fun r =>
    decide (0 < (pyIntOfValue (r.expenses.getD (.VStr "0"))).getD 0)

/-- The spec's canonical month form, stated from its words: exactly
`MM/YY` with `MM` in 01-12 and `YY` two decimal digits — five
characters, no trailing newline.  Used to compare the source's
newline-tolerant strict validator against the spec's notion. -/
def isCanonicalMMYY (s : String) : Bool :=
  mmyyCore s.toList

/-- Model of `int(record.get("salary", "0"))` as an `Option`. -/
def coerceSalary (r : PyRecord) : Option Int :=
  pyIntOfValue (r.salary.getD (.VStr "0"))

/-- Model of `int(record.get("expenses", "0"))` as an `Option`. -/
def coerceExpenses (r : PyRecord) : Option Int :=
  pyIntOfValue (r.expenses.getD (.VStr "0"))

/-- Value of a reversed digit list (least significant first); relates
`digitsRevFuel` to the number it prints. -/
def ofRevDigits : List Nat → Nat
  | [] => 0
  | d :: ds => d + 10 * ofRevDigits ds

/-- What `save_data` turns one in-memory record into: the two numeric
fields stringified. -/
def serializeRecord (r : PyRecord) : PyRecord :=
  ⟨r.month, some (.VStr (pyStrOfValue (r.salary.getD .VNone))),
   some (.VStr (pyStrOfValue (r.expenses.getD .VNone)))⟩

deriving instance DecidableEq for Except

/-! ## Theorems -/

/-- Exactly one of {successful kind, error} is set on a parse result. -/
def exactlyOne (r : CommandResult) : Prop :=
  (r.command ≠ none ∧ r.error = none) ∨ (r.command = none ∧ r.error ≠ none)

/-! ### Whitespace collapsing and the `add` recursion -/

theorem collapseAux_length_le :
    ∀ (l : List Char) (sw p : Bool),
      (collapseAux sw p l).length ≤ (if p then 1 else 0) + l.length := by
  intro l
  induction l with
  | nil => intro sw p; simp [collapseAux]
  | cons c cs ih =>
    intro sw p
    by_cases hs : isSpaceChar c = true
    · have h1 := ih sw sw
      simp only [collapseAux, hs, if_true]
      cases sw <;> cases p <;> simp_all <;> omega
    · have h1 := ih true false
      simp only [collapseAux, hs]
      cases p <;> simp_all <;> omega

theorem collapse_length_le (l : List Char) : (collapse l).length ≤ l.length := by
  have h := collapseAux_length_le l false false
  simpa [collapse] using h

theorem matchAdd_payload (u p : List Char) (h : matchAdd u = some p) :
    p <:+ u ∧ p.length + 4 ≤ u.length := by
  cases u with
  | nil => simp [matchAdd] at h
  | cons c1 t1 =>
    cases t1 with
    | nil => simp [matchAdd] at h
    | cons c2 t2 =>
      cases t2 with
      | nil => simp [matchAdd] at h
      | cons c3 rest =>
        simp only [matchAdd] at h
        split at h
        · rename_i hcond
          obtain ⟨-, -, -, htw, -⟩ := hcond
          injection h with h
          subst h
          constructor
          · exact (List.dropWhile_suffix _).trans
              ((List.suffix_cons c3 rest).trans
                ((List.suffix_cons c2 _).trans (List.suffix_cons c1 _)))
          · have h1 : (rest.takeWhile isSpaceChar).length +
                (rest.dropWhile isSpaceChar).length = rest.length := by
              rw [← List.length_append, List.takeWhile_append_dropWhile]
            have h2 : 0 < (rest.takeWhile isSpaceChar).length :=
              List.length_pos.mpr htw
            simp only [List.length_cons]
            omega
        · exact absurd h (by simp)

theorem parseFuel_isSome :
    ∀ (n : Nat) (l : List Char), l.length < n → (parseFuel n l).isSome := by
  intro n
  induction n with
  | zero => intro l h; omega
  | succ n ih =>
    intro l hl
    unfold parseFuel
    simp only
    split
    · simp
    · split
      · simp
      · cases hm : matchAdd (collapse l) with
        | none => simp
        | some payload =>
          simp only []
          have hlen := (matchAdd_payload _ _ hm).2
          have hcl := collapse_length_le l
          have hpl : payload.length < n := by omega
          have hs := ih payload hpl
          cases hpf : parseFuel n payload with
          | none => rw [hpf] at hs; simp at hs
          | some x =>
            cases x with
            | error e => simp [addGlue]
            | ok inner => simp only [addGlue]; split <;> simp

/-- C9: `parse_command` terminates on every input: the one self-call
(the `add <rest>` branch) receives a strict suffix of the
whitespace-collapsed input that is at least four characters shorter, the
collapsed input is no longer than the raw input, and consequently fuel
`length + 1` always suffices — `parseFuel` never runs out, so
`parse_command` is total on arbitrarily nested `add add ... <command>`
inputs. -/
theorem parse_command_terminates :
    (∀ u p, matchAdd u = some p → p <:+ u ∧ p.length + 4 ≤ u.length) ∧
    (∀ l : List Char, (collapse l).length ≤ l.length) ∧
    (∀ n l, l.length < n → (parseFuel n l).isSome) :=
  ⟨matchAdd_payload, collapse_length_le, parseFuel_isSome⟩

theorem parse_command_terminates_witness :
    (("x".toList <:+ "add x".toList ∧ "x".toList.length + 4 ≤ "add x".toList.length) ∧
      (collapse "  add   exit ".toList).length ≤ "  add   exit ".toList.length) ∧
    (parseFuel 6 "add x".toList).isSome :=
  ⟨⟨parse_command_terminates.1 "add x".toList "x".toList (by decide),
    parse_command_terminates.2.1 "  add   exit ".toList⟩,
   parse_command_terminates.2.2 6 "add x".toList (by decide)⟩

/-! ### The parser scenarios -/

/-- C1: The eight representative parser scenarios: `"1"` is a
`menu_option` of value 1; `""` is `menu`; `"+3000 3/25"` is
`income(3000, "03/25")`; `"-2500 2.25"` is `expense(2500, "02/25")`;
`"bank 12000"` is `bank(12000)`; `"bank"` is an `invalid_command`
error; `"+abc 3/25"` is an `invalid_command` error; and
`"+3000 13/25"` is an `invalid_date` error. -/
theorem parse_command_scenarios :
    parse_command "1" = .ok ⟨some "menu_option", none, none, none, some 1⟩ ∧
    parse_command "" = .ok ⟨some "menu", none, none, none, none⟩ ∧
    parse_command "+3000 3/25" = .ok ⟨some "income", some 3000, some "03/25", none, none⟩ ∧
    parse_command "-2500 2.25" = .ok ⟨some "expense", some 2500, some "02/25", none, none⟩ ∧
    parse_command "bank 12000" = .ok ⟨some "bank", some 12000, none, none, none⟩ ∧
    parse_command "bank" = .ok ⟨none, none, none, some "invalid_command", none⟩ ∧
    parse_command "+abc 3/25" = .ok ⟨none, none, none, some "invalid_command", none⟩ ∧
    parse_command "+3000 13/25" = .ok ⟨none, none, none, some "invalid_date", none⟩ := by
  refine ⟨by decide, by decide, by decide, by decide, by decide, by decide, by decide, by decide⟩

/-! ### Totality of the parser (C3) -/

theorem ensure_error_cases (l : List Char) (e : PyExn)
    (h : ensure_valid_financial_input l = .error e) :
    e = .valueError ∨ e = .overflowError := by
  unfold ensure_valid_financial_input at h
  cases hf : pyFloatOfChars (cleanAmount l) with
  | none => rw [hf] at h; injection h with h; exact Or.inl h.symm
  | some f =>
    rw [hf] at h
    cases f with
    | nan => simp [pyIntOfFloat] at h; exact Or.inl h.symm
    | inf neg => simp [pyIntOfFloat] at h; exact Or.inr h.symm
    | fin neg m p =>
      simp only [pyIntOfFloat] at h
      have key : ∀ t : Int,
          (if t < 0 then (.error .valueError : Except PyExn Int) else .ok t) = .error e →
          e = .valueError := by
        intro t ht
        split at ht
        · injection ht with ht; exact ht.symm
        · exact absurd ht (by simp)
      exact Or.inl (key _ h)

theorem parseLeaf_cases (u : List Char) :
    (∀ r, parseLeaf u = .ok r → exactlyOne r) ∧
    (∀ e, parseLeaf u = .error e → e = .overflowError) := by
  unfold parseLeaf
  cases hb : matchBank u with
  | some payload =>
    simp only []
    cases he : ensure_valid_financial_input (stripWs payload) with
    | ok a => exact ⟨fun r hr => by injection hr with hr; subst hr; left; simp [blankResult],
                     fun e hh => by simp at hh⟩
    | error e1 =>
      rcases ensure_error_cases _ _ he with h1 | h1 <;> subst h1
      · exact ⟨fun r hr => by injection hr with hr; subst hr; right; simp [errorResult, blankResult],
               fun e hh => by simp at hh⟩
      · exact ⟨fun r hr => by simp at hr, fun e hh => by injection hh with hh; exact hh.symm⟩
  | none =>
    simp only []
    by_cases hw : bankWordProbe u = true
    · simp only [hw, if_true]
      exact ⟨fun r hr => by injection hr with hr; subst hr; right; simp [errorResult, blankResult],
             fun e hh => by simp at hh⟩
    · simp only [hw, if_false, Bool.false_eq_true]
      cases hu : matchUpdate u with
      | some t =>
        obtain ⟨isPlus, ds, mt⟩ := t
        simp only []
        cases he : ensure_valid_financial_input ds with
        | ok a =>
          simp only []
          split
          · exact ⟨fun r hr => by injection hr with hr; subst hr; left; simp,
                   fun e hh => by simp at hh⟩
          · exact ⟨fun r hr => by injection hr with hr; subst hr; right; simp [errorResult, blankResult],
                   fun e hh => by simp at hh⟩
        | error e1 =>
          rcases ensure_error_cases _ _ he with h1 | h1 <;> subst h1
          · exact ⟨fun r hr => by injection hr with hr; subst hr; right; simp [errorResult, blankResult],
                   fun e hh => by simp at hh⟩
          · exact ⟨fun r hr => by simp at hr, fun e hh => by injection hh with hh; exact hh.symm⟩
      | none =>
        simp only []
        split
        · exact ⟨fun r hr => by injection hr with hr; subst hr; right; simp [errorResult, blankResult],
                 fun e hh => by simp at hh⟩
        · split
          · exact ⟨fun r hr => by injection hr with hr; subst hr; left; simp [blankResult],
                   fun e hh => by simp at hh⟩
          · split
            · exact ⟨fun r hr => by injection hr with hr; subst hr; left; simp [blankResult],
                     fun e hh => by simp at hh⟩
            · split
              · exact ⟨fun r hr => by injection hr with hr; subst hr; left; simp [blankResult],
                       fun e hh => by simp at hh⟩
              · split
                · exact ⟨fun r hr => by injection hr with hr; subst hr; left; simp [blankResult],
                         fun e hh => by simp at hh⟩
                · split
                  · exact ⟨fun r hr => by injection hr with hr; subst hr; left; simp [blankResult],
                           fun e hh => by simp at hh⟩
                  · exact ⟨fun r hr => by injection hr with hr; subst hr; right; simp [errorResult, blankResult],
                           fun e hh => by simp at hh⟩

theorem parseFuel_cases :
    ∀ (n : Nat) (l : List Char),
      (∀ r, parseFuel n l = some (.ok r) → exactlyOne r) ∧
      (∀ e, parseFuel n l = some (.error e) → e = .overflowError) := by
  intro n
  induction n with
  | zero => intro l; simp [parseFuel]
  | succ n ih =>
    intro l
    unfold parseFuel
    simp only
    split
    · exact ⟨fun r hr => by injection hr with hr; injection hr with hr; subst hr; left; simp [blankResult],
             fun e hh => by simp at hh⟩
    · split
      · exact ⟨fun r hr => by injection hr with hr; injection hr with hr; subst hr; left; simp,
               fun e hh => by simp at hh⟩
      · cases hm : matchAdd (collapse l) with
        | some payload =>
          simp only []
          cases hpf : parseFuel n payload with
          | none => simp [addGlue]
          | some x =>
            cases x with
            | error e1 =>
              have he1 := (ih payload).2 e1 hpf
              subst he1
              simp only [addGlue]
              exact ⟨fun r hr => by simp at hr,
                     fun e hh => by injection hh with hh; injection hh with hh; exact hh.symm⟩
            | ok inner =>
              have hin := (ih payload).1 inner hpf
              simp only [addGlue]
              split
              · constructor
                · intro r hr
                  injection hr with hr
                  injection hr with hr
                  subst hr
                  right
                  simp [errorResult, blankResult]
                · intro e hh
                  simp at hh
              · constructor
                · intro r hr
                  injection hr with hr
                  injection hr with hr
                  subst hr
                  exact hin
                · intro e hh
                  simp at hh
        | none =>
          simp only []
          have hpl := parseLeaf_cases (collapse l)
          exact ⟨fun r hr => hpl.1 r (by injection hr),
                 fun e hh => hpl.2 e (by injection hh)⟩

/-- C3 (corrected; see the counterexample below).  `parse_command`
always returns a uniform command dict in which exactly one of the
successful kind and the error code is set — *except* that the
`OverflowError` raised by `int(float(...))` on amounts that round beyond
the binary64 range is not caught by the parser's `except ValueError`
clauses and escapes; every other validation failure (including every
`ValueError` from amount validation in the `bank` and sign-prefixed
branches) is encoded in the `error` field. -/
theorem parse_command_uniform_or_overflow (s : String) :
    (∀ r, parse_command s = .ok r → exactlyOne r) ∧
    (∀ e, parse_command s = .error e → e = .overflowError) := by
  unfold parse_command
  cases hp : parseFuel (s.toList.length + 1) s.toList with
  | none =>
    have := parseFuel_isSome (s.toList.length + 1) s.toList (by omega)
    rw [hp] at this
    simp at this
  | some x =>
    simp only [Option.getD_some]
    exact ⟨fun r hr => (parseFuel_cases _ s.toList).1 r (by rw [hp, hr]),
           fun e hh => (parseFuel_cases _ s.toList).2 e (by rw [hp, hh])⟩

theorem parse_command_uniform_witness :
    exactlyOne ⟨some "income", some 3000, some "03/25", none, none⟩ :=
  (parse_command_uniform_or_overflow "+3000 3/25").1 _ (by decide)

/-- C3, counterexample:  `parse_command` is *not* exception-free:
on the input `"bank inf"` the amount validator computes
`int(float("inf"))`, whose `OverflowError` is caught neither by
`ensure_valid_financial_input`'s `except (ValueError, TypeError)` nor by
the parser's `except ValueError`, so the call raises instead of
returning a command dict. -/
theorem parse_command_raises_on_bank_inf :
    parse_command "bank inf" = .error .overflowError := by decide

/-! ### Sorting of the record list (C5) -/

theorem sorted_iff_keys (l : List PyRecord) :
    List.Sorted recLe l ↔ List.Pairwise keyLe (l.map getDateKey) := by
  rw [List.pairwise_map]
  exact Iff.rfl

theorem overwriteScan_keys (month : String) (amount : Int) (isSalary : Bool) :
    ∀ (l l' : List PyRecord),
      overwriteScan month amount isSalary l = .ok (some l') →
      l'.map getDateKey = l.map getDateKey := by
  intro l
  induction l with
  | nil => intro l' h; simp [overwriteScan] at h
  | cons r rs ih =>
    intro l' h
    obtain ⟨rm, rs1, re1⟩ := r
    simp only [overwriteScan] at h
    cases hm : rm with
    | none => rw [hm] at h; simp at h
    | some v =>
      rw [hm] at h
      simp only [] at h
      by_cases he : monthKeyEq v month = true
      · rw [if_pos he] at h
        injection h with h
        injection h with h
        subst h
        cases isSalary <;> exact rfl
      · rw [if_neg he] at h
        cases hrec : overwriteScan month amount isSalary rs with
        | error e => rw [hrec] at h; simp at h
        | ok o =>
          rw [hrec] at h
          cases o with
          | none => simp at h
          | some rs' =>
            simp only [] at h
            injection h with h
            injection h with h
            subst h
            simp only [List.map_cons, ih rs' hrec]

theorem add_monthly_record_preserves_sorted (d : BudgetData) (month : String)
    (amount : Int) (isSalary : Bool)
    (hd : List.Sorted recLe d.monthly_records) :
    List.Sorted recLe (add_monthly_record d month amount isSalary).1.monthly_records := by
  unfold add_monthly_record
  cases ensureValidFinancialInputInt amount with
  | error e => exact hd
  | ok amount' =>
    simp only []
    by_cases hmf : ensure_valid_month_format month = true
    · rw [if_pos hmf]
      cases hsc : overwriteScan month amount' isSalary d.monthly_records with
      | error e => exact hd
      | ok o =>
        cases o with
        | none =>
          simp only []
          exact List.sorted_insertionSort recLe _
        | some recs =>
          simp only []
          rw [sorted_iff_keys, overwriteScan_keys _ _ _ _ _ hsc, ← sorted_iff_keys]
          exact hd
    · rw [if_neg hmf]
      exact hd

/-- C5 (corrected; see the counterexample below).  Provided the
starting record list is already non-decreasing in the
`(year, month-number)` key — as every dataset the application itself
produces is — any sequence of `add_monthly_record` calls keeps it
non-decreasing: a call that appends re-sorts the whole list, and a call
that overwrites an existing month's field leaves every record's key
unchanged. -/
theorem upserts_preserve_sorted (ops : List UpsertOp) (d : BudgetData)
    (hd : List.Sorted recLe d.monthly_records) :
    List.Sorted recLe (applyUpserts d ops).monthly_records := by
  induction ops generalizing d with
  | nil => exact hd
  | cons op rest ih =>
    exact ih _ (add_monthly_record_preserves_sorted d op.1 op.2.1 op.2.2 hd)

theorem upserts_preserve_sorted_witness :
    List.Sorted recLe
      (applyUpserts
        ⟨[⟨some (.VStr "03/25"), some (.VInt 1000), some (.VInt 250)⟩,
          ⟨some (.VStr "04/25"), some (.VInt 1), some (.VInt 0)⟩], .VInt 0⟩
        [("04/25", 7, true), ("05/25", 3, false)]).monthly_records :=
  upserts_preserve_sorted _ _ (by decide)

/-- C5, counterexample:  The claim fails for an arbitrary starting
dataset: `add_monthly_record` re-sorts only on the append path, so a
*successful* overwrite of an existing month in an unsorted starting list
leaves the list unsorted ("04/25" still precedes "03/25"). -/
theorem upsert_sorted_counterexample :
    (add_monthly_record
        ⟨[⟨some (.VStr "04/25"), some (.VInt 1), some (.VInt 0)⟩,
          ⟨some (.VStr "03/25"), some (.VInt 2), some (.VInt 0)⟩], .VInt 0⟩
        "04/25" 5 true).2 = none ∧
    ¬ List.Sorted recLe
      (add_monthly_record
        ⟨[⟨some (.VStr "04/25"), some (.VInt 1), some (.VInt 0)⟩,
          ⟨some (.VStr "03/25"), some (.VInt 2), some (.VInt 0)⟩], .VInt 0⟩
        "04/25" 5 true).1.monthly_records := by
  constructor
  · decide
  · decide

/-! ### Atomicity of the store operations (C6) -/

theorem chop_eq_self (l : List Char) (h : ¬ l.reverse.head? = some '\n') :
    chopFinalNewline l = l := by
  unfold chopFinalNewline
  cases hr : l.reverse with
  | nil => rfl
  | cons c rest =>
    rw [hr] at h
    simp only [List.head?_cons, Option.some_inj] at h
    simp only []
    rw [if_neg fun hc => h hc]

theorem chop_newline (l rest : List Char) (h : l.reverse = '\n' :: rest) :
    chopFinalNewline l = rest.reverse := by
  unfold chopFinalNewline
  rw [h]
  simp

theorem mmyyCore_shape (l : List Char) (h : mmyyCore l = true) :
    ∃ a b y1 y2, l = [a, b, '/', y1, y2] ∧ isDigitChar y2 = true := by
  rcases l with _ | ⟨a, l1⟩
  · exact absurd h (by decide)
  rcases l1 with _ | ⟨b, l2⟩
  · exact absurd h (by simp [mmyyCore])
  rcases l2 with _ | ⟨sep, l3⟩
  · exact absurd h (by simp [mmyyCore])
  rcases l3 with _ | ⟨y1, l4⟩
  · exact absurd h (by simp [mmyyCore])
  rcases l4 with _ | ⟨y2, l5⟩
  · exact absurd h (by simp [mmyyCore])
  rcases l5 with _ | ⟨c6, rest⟩
  · simp only [mmyyCore, Bool.and_eq_true, decide_eq_true_eq] at h
    obtain ⟨⟨⟨-, hsep⟩, -⟩, hy2⟩ := h
    subst hsep
    exact ⟨a, b, y1, y2, rfl, hy2⟩
  · exact absurd h (by simp [mmyyCore])

theorem ensure_valid_month_format_iff (s : String) :
    ensure_valid_month_format s = true ↔
      (isCanonicalMMYY s = true ∨
       ∃ t : List Char, s.toList = t ++ ['\n'] ∧ mmyyCore t = true) := by
  unfold ensure_valid_month_format
  by_cases hh : s.toList.reverse.head? = some '\n'
  · obtain ⟨rest, hrev⟩ : ∃ rest, s.toList.reverse = '\n' :: rest := by
      cases hr : s.toList.reverse with
      | nil => rw [hr] at hh; simp at hh
      | cons c rest =>
        rw [hr] at hh
        simp only [List.head?_cons, Option.some_inj] at hh
        subst hh
        exact ⟨rest, rfl⟩
    have hl : s.toList = rest.reverse ++ ['\n'] := by
      have h2 := congrArg List.reverse hrev
      simpa using h2
    rw [chop_newline _ rest hrev]
    constructor
    · intro h
      exact Or.inr ⟨rest.reverse, hl, h⟩
    · rintro (h | ⟨t, ht, hm⟩)
      · obtain ⟨a, b, y1, y2, hsh, hdig⟩ := mmyyCore_shape _ h
        rw [hl] at hsh
        have hrevs : ('\n' :: rest : List Char) = [y2, y1, '/', b, a] := by
          have h3 := congrArg List.reverse hsh
          simpa using h3
        injection hrevs with h4 h5
        rw [← h4] at hdig
        exact absurd hdig (by decide)
      · have hteq : t = rest.reverse := by
          have h2 : t ++ ['\n'] = rest.reverse ++ ['\n'] := by rw [← ht, hl]
          exact List.append_cancel_right h2
        rw [hteq] at hm
        exact hm
  · rw [chop_eq_self _ hh]
    constructor
    · intro h
      exact Or.inl h
    · rintro (h | ⟨t, ht, -⟩)
      · exact h
      · exact absurd (by rw [ht]; simp : s.toList.reverse.head? = some '\n') hh

/-- C6 (corrected; see the counterexample below).  `add_monthly_record`
and `update_bank_balance` fail fast and atomically: whenever the amount
validation fails or the month is rejected by the source's strict
validator, the operation reports an exception, and whenever any
exception escapes either operation the post-state dataset is exactly the
input dataset — no record field, no record-list entry, and no bank
balance has been modified.  However, that validator does not reject
*every* month outside strict `MM/YY` form: Python's `$` also matches
before one trailing newline, so it accepts exactly the canonical `MM/YY`
strings and the canonical strings followed by one `'\n'` (final
conjunct), and on the latter the operation succeeds and mutates. -/
theorem store_operations_atomic :
    (∀ (d : BudgetData) (m : String) (a : Int) (b : Bool),
      (∃ e, ensureValidFinancialInputInt a = .error e) ∨
        ensure_valid_month_format m = false →
      ∃ e, add_monthly_record d m a b = (d, some e)) ∧
    (∀ (d : BudgetData) (m : String) (a : Int) (b : Bool),
      (add_monthly_record d m a b).2 ≠ none →
      (add_monthly_record d m a b).1 = d) ∧
    (∀ (d : BudgetData) (a : Int),
      (∃ e, ensureValidFinancialInputInt a = .error e) →
      ∃ e, update_bank_balance d a = (d, some e)) ∧
    (∀ (d : BudgetData) (a : Int),
      (update_bank_balance d a).2 ≠ none → (update_bank_balance d a).1 = d) ∧
    (∀ s : String,
      ensure_valid_month_format s = true ↔
        (isCanonicalMMYY s = true ∨
         ∃ t : List Char, s.toList = t ++ ['\n'] ∧ mmyyCore t = true)) := by
  refine ⟨?_, ?_, ?_, ?_, ensure_valid_month_format_iff⟩
  · intro d m a b hbad
    unfold add_monthly_record
    rcases hbad with ⟨e, he⟩ | hm
    · rw [he]; exact ⟨e, rfl⟩
    · cases hv : ensureValidFinancialInputInt a with
      | error e => exact ⟨e, rfl⟩
      | ok a' =>
        simp only [hm, Bool.false_eq_true, if_false]
        exact ⟨.valueError, rfl⟩
  · intro d m a b hfail
    unfold add_monthly_record at *
    cases hv : ensureValidFinancialInputInt a with
    | error e => rfl
    | ok a' =>
      rw [hv] at hfail
      simp only [] at hfail ⊢
      by_cases hm : ensure_valid_month_format m = true
      · rw [if_pos hm] at hfail ⊢
        cases hsc : overwriteScan m a' b d.monthly_records with
        | error e => rfl
        | ok o =>
          rw [hsc] at hfail
          cases o with
          | none => simp at hfail
          | some recs => simp at hfail
      · rw [if_neg hm]
  · intro d a ⟨e, he⟩
    unfold update_bank_balance
    rw [he]
    exact ⟨e, rfl⟩
  · intro d a hfail
    unfold update_bank_balance at *
    cases hv : ensureValidFinancialInputInt a with
    | error e => rfl
    | ok b => rw [hv] at hfail; simp at hfail

theorem store_operations_atomic_witness :
    (∃ e, add_monthly_record ⟨[], .VInt 0⟩ "5/25" 7 true = (⟨[], .VInt 0⟩, some e)) ∧
    (∃ e, add_monthly_record ⟨[], .VInt 3⟩ "03/25" (-7) true = (⟨[], .VInt 3⟩, some e)) ∧
    (∃ e, update_bank_balance ⟨[], .VInt 5⟩ (-1) = (⟨[], .VInt 5⟩, some e)) :=
  ⟨store_operations_atomic.1 _ _ _ _ (Or.inr (by decide)),
   store_operations_atomic.1 _ _ _ _ (Or.inl ⟨.valueError, by decide⟩),
   store_operations_atomic.2.2.1 _ _ ⟨.valueError, by decide⟩⟩

/-- C6, counterexample:  the original claim fails because the strict
month check is `re.match(r"^(0[1-9]|1[0-2])/\d{2}$", ...)`, and Python's
`$` also matches just before one trailing newline: the month
`"03/25\n"` is *not* in strict `MM/YY` form, yet
`add_monthly_record` accepts it, appends a record carrying that raw
month string, and reports no error — the dataset is mutated instead of
left unchanged. -/
theorem add_monthly_record_newline_counterexample :
    isCanonicalMMYY "03/25\n" = false ∧
    add_monthly_record ⟨[], .VInt 0⟩ "03/25\n" 500 true =
      (⟨[⟨some (.VStr "03/25\n"), some (.VInt 500), some (.VInt 0)⟩], .VInt 0⟩,
       none) := by
  constructor
  · decide
  · decide

/-! ### `has_salary_data` / `has_expense_data` (C8) -/

theorem salaryScan_iff (l : List PyRecord) :
    salaryScan l = true ↔
      ∃ l1 r l2, l = l1 ++ r :: l2 ∧ (∃ p, coerceSalary r = some p ∧ 0 < p) ∧
        ∀ r' ∈ l1, (coerceSalary r').isSome := by
  induction l with
  | nil =>
    simp only [salaryScan]
    constructor
    · intro h; exact absurd h (by simp)
    · rintro ⟨l1, r, l2, heq, -, -⟩
      exact absurd heq.symm (by simp)
  | cons r0 rs ih =>
    simp only [salaryScan]
    cases hv : pyIntOfValue (r0.salary.getD (.VStr "0")) with
    | none =>
      simp only []
      constructor
      · intro h; exact absurd h (by simp)
      · rintro ⟨l1, r, l2, heq, ⟨p, hp, -⟩, hall⟩
        cases l1 with
        | nil =>
          injection heq with h1 h2
          subst h1
          rw [coerceSalary, hv] at hp
          exact absurd hp (by simp)
        | cons a l1' =>
          injection heq with h1 h2
          subst h1
          have := hall r0 (by simp)
          rw [coerceSalary, hv] at this
          exact absurd this (by simp)
    | some n =>
      simp only []
      by_cases hn : (0 : Int) < n
      · rw [if_pos hn]
        constructor
        · intro _
          exact ⟨[], r0, rs, rfl, ⟨n, by rw [coerceSalary, hv], hn⟩, by simp⟩
        · intro _; rfl
      · rw [if_neg hn]
        rw [ih]
        constructor
        · rintro ⟨l1, r, l2, heq, hpos, hall⟩
          refine ⟨r0 :: l1, r, l2, by rw [heq, List.cons_append], hpos, ?_⟩
          intro r' hm
          rcases List.mem_cons.mp hm with h | h
          · subst h; rw [coerceSalary, hv]; rfl
          · exact hall r' h
        · rintro ⟨l1, r, l2, heq, hpos, hall⟩
          cases l1 with
          | nil =>
            injection heq with h1 h2
            subst h1
            obtain ⟨p, hp, hppos⟩ := hpos
            rw [coerceSalary, hv] at hp
            injection hp with hp
            subst hp
            exact absurd hppos hn
          | cons a l1' =>
            injection heq with h1 h2
            exact ⟨l1', r, l2, h2, hpos, fun r' h => hall r' (by simp [h])⟩

theorem expenseScan_iff (l : List PyRecord) :
    expenseScan l = true ↔
      ∃ l1 r l2, l = l1 ++ r :: l2 ∧ (∃ p, coerceExpenses r = some p ∧ 0 < p) ∧
        ∀ r' ∈ l1, (coerceExpenses r').isSome := by
  induction l with
  | nil =>
    simp only [expenseScan]
    constructor
    · intro h; exact absurd h (by simp)
    · rintro ⟨l1, r, l2, heq, -, -⟩
      exact absurd heq.symm (by simp)
  | cons r0 rs ih =>
    simp only [expenseScan]
    cases hv : pyIntOfValue (r0.expenses.getD (.VStr "0")) with
    | none =>
      simp only []
      constructor
      · intro h; exact absurd h (by simp)
      · rintro ⟨l1, r, l2, heq, ⟨p, hp, -⟩, hall⟩
        cases l1 with
        | nil =>
          injection heq with h1 h2
          subst h1
          rw [coerceExpenses, hv] at hp
          exact absurd hp (by simp)
        | cons a l1' =>
          injection heq with h1 h2
          subst h1
          have := hall r0 (by simp)
          rw [coerceExpenses, hv] at this
          exact absurd this (by simp)
    | some n =>
      simp only []
      by_cases hn : (0 : Int) < n
      · rw [if_pos hn]
        constructor
        · intro _
          exact ⟨[], r0, rs, rfl, ⟨n, by rw [coerceExpenses, hv], hn⟩, by simp⟩
        · intro _; rfl
      · rw [if_neg hn]
        rw [ih]
        constructor
        · rintro ⟨l1, r, l2, heq, hpos, hall⟩
          refine ⟨r0 :: l1, r, l2, by rw [heq, List.cons_append], hpos, ?_⟩
          intro r' hm
          rcases List.mem_cons.mp hm with h | h
          · subst h; rw [coerceExpenses, hv]; rfl
          · exact hall r' h
        · rintro ⟨l1, r, l2, heq, hpos, hall⟩
          cases l1 with
          | nil =>
            injection heq with h1 h2
            subst h1
            obtain ⟨p, hp, hppos⟩ := hpos
            rw [coerceExpenses, hv] at hp
            injection hp with hp
            subst hp
            exact absurd hppos hn
          | cons a l1' =>
            injection heq with h1 h2
            exact ⟨l1', r, l2, h2, hpos, fun r' h => hall r' (by simp [h])⟩

/-- C8 (corrected; see the counterexample below).
`has_salary_data` returns true iff some record's salary coerces to a
strictly positive integer *and every record before it coerces
successfully* — the `any(...)` generator is evaluated left to right
inside one `try`, so the first coercion failure aborts the whole scan
with `False` instead of substituting 0 for just that record; and
symmetrically for `has_expense_data` on the expenses field.  Both still
return false on an empty dataset and on a dataset whose only records
have all-zero fields. -/
theorem has_data_scan_characterization :
    (∀ d : BudgetData, has_salary_data d = true ↔
      ∃ l1 r l2, d.monthly_records = l1 ++ r :: l2 ∧
        (∃ p, coerceSalary r = some p ∧ 0 < p) ∧
        ∀ r' ∈ l1, (coerceSalary r').isSome) ∧
    (∀ d : BudgetData, has_expense_data d = true ↔
      ∃ l1 r l2, d.monthly_records = l1 ++ r :: l2 ∧
        (∃ p, coerceExpenses r = some p ∧ 0 < p) ∧
        ∀ r' ∈ l1, (coerceExpenses r').isSome) ∧
    (has_salary_data ⟨[], .VInt 0⟩ = false ∧ has_expense_data ⟨[], .VInt 0⟩ = false) ∧
    (has_salary_data ⟨[⟨some (.VStr "01/25"), some (.VInt 0), some (.VInt 0)⟩], .VInt 0⟩ = false ∧
     has_expense_data ⟨[⟨some (.VStr "01/25"), some (.VInt 0), some (.VInt 0)⟩], .VInt 0⟩ = false) :=
  ⟨fun d => salaryScan_iff d.monthly_records,
   fun d => expenseScan_iff d.monthly_records,
   ⟨by decide, by decide⟩, ⟨by decide, by decide⟩⟩

theorem has_data_scan_witness :
    ∃ l1 r l2,
      ([⟨some (.VStr "02/25"), some (.VInt 5), some (.VInt 0)⟩] : List PyRecord) =
        l1 ++ r :: l2 ∧
      (∃ p, coerceSalary r = some p ∧ 0 < p) ∧
      ∀ r' ∈ l1, (coerceSalary r').isSome :=
  (has_data_scan_characterization.1
      ⟨[⟨some (.VStr "02/25"), some (.VInt 5), some (.VInt 0)⟩], .VInt 0⟩).mp (by decide)

/-- C8, counterexample:  The claim's "0 substituted on coercion
failure" reading is false: with a non-coercible salary (`"abc"`) in the
first record and a positive salary in the second, `has_salary_data`
returns `False` (the generator's `ValueError` aborts the `any`), while
the spec's record-wise reading (`hasIncomeDataSpec`) is true. -/
theorem has_salary_data_counterexample :
    has_salary_data
        ⟨[⟨some (.VStr "01/25"), some (.VStr "abc"), some (.VInt 0)⟩,
          ⟨some (.VStr "02/25"), some (.VInt 5), some (.VInt 0)⟩], .VInt 0⟩ = false ∧
    hasIncomeDataSpec
        ⟨[⟨some (.VStr "01/25"), some (.VStr "abc"), some (.VInt 0)⟩,
          ⟨some (.VStr "02/25"), some (.VInt 5), some (.VInt 0)⟩], .VInt 0⟩ = true := by
  constructor
  · decide
  · decide

/-! ### `load_data` with a non-coercible bank balance (C10) -/

/-- C10:  When the persisted file parses as JSON and has a
`monthly_records` key but its `bank_balance` value is present and not
coercible to an integer, `load_data` neither substitutes the default
dataset nor fails: `validate_and_normalize_data` raises before touching
anything, the `except ValueError` in `load_data` catches it, and the raw
(un-normalized) data is returned unchanged — the bad `bank_balance` is
kept and no record is normalized or dropped. -/
theorem load_data_keeps_raw_on_bad_bank (raw : RawData) (rs : List PyRecord)
    (v : Value) (hmr : raw.monthly_records = some rs)
    (hbb : raw.bank_balance = some v) (hv : pyIntOfValue v = none) :
    loadDataParsed raw = raw := by
  obtain ⟨mr, bb, cb⟩ := raw
  simp only [] at hmr hbb
  subst hmr
  subst hbb
  unfold loadDataParsed
  rw [if_neg (by simp)]
  have hmig : ¬ (cb ≠ none ∧ (some v : Option Value) = none) := by simp
  rw [if_neg hmig, if_neg (by simp)]
  simp only [validate_and_normalize_data, hv]

theorem load_data_keeps_raw_witness :
    loadDataParsed
        ⟨some [⟨some (.VStr "03/25"), some (.VStr "oops"), none⟩],
         some (.VStr "abc"), some (.VInt 7)⟩ =
      ⟨some [⟨some (.VStr "03/25"), some (.VStr "oops"), none⟩],
       some (.VStr "abc"), some (.VInt 7)⟩ :=
  load_data_keeps_raw_on_bad_bank _
    [⟨some (.VStr "03/25"), some (.VStr "oops"), none⟩] (.VStr "abc")
    (by decide) (by decide) (by decide)

/-! ### Duplicate-month resolution (C4) -/

theorem findMonthAux_skips (m : String) (r : PyRecord) (post : List PyRecord)
    (s0 : String) (hr : r.month = some (.VStr s0)) (hs0 : pyStrip s0 = m) :
    ∀ pre : List PyRecord,
      (∀ r' ∈ pre, ∃ s, r'.month = some (.VStr s) ∧ pyStrip s ≠ m) →
      findMonthAux m (pre ++ r :: post) = .ok (some r) := by
  intro pre
  induction pre with
  | nil =>
    intro _
    simp only [List.nil_append, findMonthAux, hr]
    simp [hs0]
  | cons a pre' ih =>
    intro hpre
    obtain ⟨s, hs, hne⟩ := hpre a (by simp)
    simp only [List.cons_append, findMonthAux, hs]
    simp only [Option.getD_some]
    rw [if_neg hne]
    exact ih fun r' h => hpre r' (by simp [h])

theorem overwriteScan_at (m : String) (a : Int) (b : Bool) (r : PyRecord)
    (post : List PyRecord) (hr : r.month = some (.VStr m)) :
    ∀ pre : List PyRecord,
      (∀ r' ∈ pre, ∃ s, r'.month = some (.VStr s) ∧ s ≠ m) →
      overwriteScan m a b (pre ++ r :: post) =
        .ok (some (pre ++ (if b then { r with salary := some (.VInt a) }
                           else { r with expenses := some (.VInt a) }) :: post)) := by
  intro pre
  induction pre with
  | nil =>
    intro _
    simp only [List.nil_append, overwriteScan, hr]
    have : monthKeyEq (.VStr m) m = true := by simp [monthKeyEq]
    rw [if_pos this]
  | cons a0 pre' ih =>
    intro hpre
    obtain ⟨s, hs, hne⟩ := hpre a0 (by simp)
    simp only [List.cons_append, overwriteScan, hs]
    have : ¬ monthKeyEq (.VStr s) m = true := by simp [monthKeyEq, hne]
    rw [if_neg this]
    simp only [List.append_eq]
    rw [ih fun r' h => hpre r' (by simp [h])]

/-- C4:  Duplicate-month resolution on a dataset whose (first)
record for `"03/25"` holds salary 1000 (and integer expenses `e`): for a
new income of 500 on `"03/25"`, choice `"1"` (Merge) stores salary 1500,
choice `"2"` (Overwrite) stores salary 500, and any other choice leaves
the dataset unchanged — in all three cases the record's `expenses`
field, every other record, and the bank balance are untouched. -/
theorem duplicate_resolution_cases (d : BudgetData) (pre post : List PyRecord)
    (r : PyRecord) (e : Int)
    (hd : d.monthly_records = pre ++ r :: post)
    (hpre : ∀ r' ∈ pre, ∃ s, r'.month = some (.VStr s) ∧ pyStrip s ≠ "03/25")
    (hrm : r.month = some (.VStr "03/25"))
    (hsal : r.salary = some (.VInt 1000))
    (hexp : r.expenses = some (.VInt e)) :
    handle_duplicate_month_entry d "03/25" 500 true "1" =
      .ok (⟨pre ++ { r with salary := some (.VInt 1500) } :: post, d.bank_balance⟩,
           .merged 1500) ∧
    handle_duplicate_month_entry d "03/25" 500 true "2" =
      .ok (⟨pre ++ { r with salary := some (.VInt 500) } :: post, d.bank_balance⟩,
           .overwritten 500) ∧
    ∀ c : String, pyStrip c ≠ "1" → pyStrip c ≠ "2" →
      handle_duplicate_month_entry d "03/25" 500 true c = .ok (d, .cancelled) := by
  have hstrip : pyStrip "03/25" = "03/25" := by decide
  have hfind : get_existing_data_for_month d "03/25" = .ok (some r) := by
    unfold get_existing_data_for_month
    rw [hstrip, hd]
    exact findMonthAux_skips "03/25" r post "03/25" hrm hstrip pre hpre
  have hpre' : ∀ r' ∈ pre, ∃ s, r'.month = some (.VStr s) ∧ s ≠ "03/25" := by
    intro r' h
    obtain ⟨s, hs, hne⟩ := hpre r' h
    exact ⟨s, hs, fun hh => hne (by rw [hh]; exact hstrip)⟩
  have hadd : ∀ amt : Int, ensureValidFinancialInputInt amt = .ok amt →
      add_monthly_record d "03/25" amt true =
        (⟨pre ++ { r with salary := some (.VInt amt) } :: post, d.bank_balance⟩, none) := by
    intro amt hval
    unfold add_monthly_record
    rw [hval]
    simp only []
    rw [if_pos (by decide : ensure_valid_month_format "03/25" = true), hd,
        overwriteScan_at "03/25" amt true r post hrm pre hpre']
    rfl
  have hkey : ∀ c : String,
      handle_duplicate_month_entry d "03/25" 500 true c =
        if pyStrip c = "1" then
          .ok (⟨pre ++ { r with salary := some (.VInt 1500) } :: post, d.bank_balance⟩,
               .merged 1500)
        else if pyStrip c = "2" then
          .ok (⟨pre ++ { r with salary := some (.VInt 500) } :: post, d.bank_balance⟩,
               .overwritten 500)
        else .ok (d, .cancelled) := by
    intro c
    unfold handle_duplicate_month_entry
    rw [hfind]
    simp only [Option.getD_some, if_true, hsal, hexp, pyIntOfValue, Option.isNone_some,
               Bool.false_eq_true, if_false]
    by_cases h1 : pyStrip c = "1"
    · rw [if_pos h1, if_pos h1]
      rw [show (1000 : Int) + 500 = 1500 by norm_num, hadd 1500 (by decide)]
      simp [hexp]
    · rw [if_neg h1, if_neg h1]
      by_cases h2 : pyStrip c = "2"
      · rw [if_pos h2, if_pos h2]
        rw [hadd 500 (by decide)]
        simp [hexp]
      · rw [if_neg h2, if_neg h2]
  refine ⟨?_, ?_, ?_⟩
  · rw [hkey "1", if_pos (by decide)]
  · rw [hkey "2", if_neg (by decide), if_pos (by decide)]
  · intro c h1 h2
    rw [hkey c, if_neg h1, if_neg h2]

theorem duplicate_resolution_witness :
    handle_duplicate_month_entry
        ⟨[⟨some (.VStr "03/25"), some (.VInt 1000), some (.VInt 250)⟩], .VInt 9⟩
        "03/25" 500 true "1" =
      .ok (⟨[⟨some (.VStr "03/25"), some (.VInt 1500), some (.VInt 250)⟩], .VInt 9⟩,
           .merged 1500) ∧
    handle_duplicate_month_entry
        ⟨[⟨some (.VStr "03/25"), some (.VInt 1000), some (.VInt 250)⟩], .VInt 9⟩
        "03/25" 500 true " 3 " =
      .ok (⟨[⟨some (.VStr "03/25"), some (.VInt 1000), some (.VInt 250)⟩], .VInt 9⟩,
           .cancelled) :=
  ⟨(duplicate_resolution_cases
      ⟨[⟨some (.VStr "03/25"), some (.VInt 1000), some (.VInt 250)⟩], .VInt 9⟩
      [] [] ⟨some (.VStr "03/25"), some (.VInt 1000), some (.VInt 250)⟩ 250
      rfl (by simp) rfl rfl rfl).1,
   (duplicate_resolution_cases
      ⟨[⟨some (.VStr "03/25"), some (.VInt 1000), some (.VInt 250)⟩], .VInt 9⟩
      [] [] ⟨some (.VStr "03/25"), some (.VInt 1000), some (.VInt 250)⟩ 250
      rfl (by simp) rfl rfl rfl).2.2 " 3 " (by decide) (by decide)⟩

/-! ### Decimal printing and parsing round-trip (towards C7) -/

theorem digit_facts : ∀ d : Nat, d < 10 →
    digitVal (digitChar d) = d ∧ isDigitChar (digitChar d) = true := by decide

theorem digit_not_space (c : Char) (h : isDigitChar c = true) :
    isSpaceChar c = false := by
  simp only [isDigitChar, decide_eq_true_eq] at h
  simp only [isSpaceChar, decide_eq_false_iff_not]
  omega

theorem digit_not_underscore (c : Char) (h : isDigitChar c = true) : ¬ c = '_' := by
  intro hc
  subst hc
  exact absurd h (by decide)

theorem digitsRevFuel_val :
    ∀ fuel m : Nat, m ≤ fuel → ofRevDigits (digitsRevFuel fuel m) = m := by
  intro fuel
  induction fuel with
  | zero => intro m hm; interval_cases m; rfl
  | succ f ih =>
    intro m hm
    by_cases h0 : m = 0
    · subst h0; rfl
    · simp only [digitsRevFuel, h0, if_false, ofRevDigits]
      have hd : m / 10 ≤ f := by omega
      rw [ih _ hd]
      omega

theorem digitsRevFuel_lt10 :
    ∀ fuel m d : Nat, d ∈ digitsRevFuel fuel m → d < 10 := by
  intro fuel
  induction fuel with
  | zero => intro m d h; simp [digitsRevFuel] at h
  | succ f ih =>
    intro m d h
    by_cases h0 : m = 0
    · subst h0; simp [digitsRevFuel] at h
    · simp only [digitsRevFuel, h0, if_false, List.mem_cons] at h
      rcases h with h | h
      · subst h; omega
      · exact ih _ _ h

theorem natOfDigits_append_one (xs : List Char) (c : Char) :
    natOfDigits (xs ++ [c]) = 10 * natOfDigits xs + digitVal c := by
  simp [natOfDigits, List.foldl_append]

theorem natOfDigits_reverse_map (ds : List Nat) (hds : ∀ d ∈ ds, d < 10) :
    natOfDigits ((ds.map digitChar).reverse) = ofRevDigits ds := by
  induction ds with
  | nil => rfl
  | cons d ds ih =>
    simp only [List.map_cons, List.reverse_cons, natOfDigits_append_one, ofRevDigits]
    rw [ih fun x hx => hds x (by simp [hx])]
    rw [(digit_facts d (hds d (by simp))).1]
    ring

theorem natToChars_digits (n : Nat) :
    (natToChars n).all isDigitChar = true := by
  unfold natToChars
  by_cases h0 : n = 0
  · subst h0; decide
  · rw [if_neg h0]
    rw [List.all_eq_true]
    intro c hc
    rw [List.mem_reverse, List.mem_map] at hc
    obtain ⟨d, hd, hdc⟩ := hc
    subst hdc
    exact (digit_facts d (digitsRevFuel_lt10 n n d hd)).2

theorem natToChars_ne_nil (n : Nat) : natToChars n ≠ [] := by
  unfold natToChars
  by_cases h0 : n = 0
  · subst h0; simp
  · rw [if_neg h0]
    intro h
    rw [List.reverse_eq_nil_iff, List.map_eq_nil_iff] at h
    have := digitsRevFuel_val n n le_rfl
    rw [h] at this
    exact h0 (by simpa [ofRevDigits] using this.symm)

theorem natOfDigits_natToChars (n : Nat) : natOfDigits (natToChars n) = n := by
  unfold natToChars
  by_cases h0 : n = 0
  · subst h0; rfl
  · rw [if_neg h0, natOfDigits_reverse_map _ (digitsRevFuel_lt10 n n),
        digitsRevFuel_val n n le_rfl]

theorem dropWhile_space_of_digits (l : List Char) (h : l.all isDigitChar = true) :
    l.dropWhile isSpaceChar = l := by
  cases l with
  | nil => rfl
  | cons c cs =>
    rw [List.all_cons, Bool.and_eq_true] at h
    simp [List.dropWhile_cons, digit_not_space c h.1]

theorem stripWs_of_digits (l : List Char) (h : l.all isDigitChar = true) :
    stripWs l = l := by
  unfold stripWs
  rw [dropWhile_space_of_digits l h,
      dropWhile_space_of_digits l.reverse (by simpa using h), List.reverse_reverse]

theorem vgRest_of_digits (l : List Char) (h : l.all isDigitChar = true) :
    vgRest l = true := by
  induction l with
  | nil => rfl
  | cons c cs ih =>
    rw [List.all_cons, Bool.and_eq_true] at h
    unfold vgRest
    rw [if_neg (digit_not_underscore c h.1), h.1, Bool.true_and]
    exact ih h.2

theorem validGroup_of_digits (l : List Char) (hne : l ≠ [])
    (h : l.all isDigitChar = true) : validGroup l = true := by
  cases l with
  | nil => exact absurd rfl hne
  | cons c cs =>
    rw [List.all_cons, Bool.and_eq_true] at h
    simp only [validGroup, h.1, Bool.true_and]
    exact vgRest_of_digits cs h.2

theorem filter_underscore_of_digits (l : List Char) (h : l.all isDigitChar = true) :
    (l.filter fun c => ¬ c = '_') = l := by
  rw [List.filter_eq_self]
  intro c hc
  rw [List.all_eq_true] at h
  simpa using digit_not_underscore c (h c hc)

theorem pyIntOfChars_natToChars (n : Nat) :
    pyIntOfChars (natToChars n) = some (n : Int) := by
  have hdig := natToChars_digits n
  have hne := natToChars_ne_nil n
  unfold pyIntOfChars
  rw [stripWs_of_digits _ hdig]
  have hhead : ∀ c, (natToChars n).head? = some c → isDigitChar c = true := by
    intro c hc
    cases hl : natToChars n with
    | nil => exact absurd hl hne
    | cons a cs =>
      rw [hl] at hc
      injection hc with hc
      subst hc
      rw [hl, List.all_cons, Bool.and_eq_true] at hdig
      exact hdig.1
  have hplus : ¬ (natToChars n).head? = some '+' := by
    intro hc
    exact absurd (hhead _ hc) (by decide)
  have hminus : ¬ (natToChars n).head? = some '-' := by
    intro hc
    exact absurd (hhead _ hc) (by decide)
  rw [if_neg hplus, if_neg hminus, if_pos (validGroup_of_digits _ hne hdig)]
  unfold groupVal
  rw [filter_underscore_of_digits _ hdig, natOfDigits_natToChars]

theorem pyIntOfValue_intToString (s : Int) (hs : 0 ≤ s) :
    pyIntOfValue (.VStr (intToString s)) = some s := by
  unfold pyIntOfValue intToString
  rw [if_neg (by omega)]
  show pyIntOfChars (String.mk (natToChars s.toNat)).toList = some s
  have : (String.mk (natToChars s.toNat)).toList = natToChars s.toNat := rfl
  rw [this, pyIntOfChars_natToChars, Int.toNat_of_nonneg hs]

/-! ### Round-trip persistence (C7) -/

theorem serializeRecords_eq :
    ∀ l : List PyRecord, (∀ r ∈ l, r.salary ≠ none ∧ r.expenses ≠ none) →
      serializeRecords l = .ok (l.map serializeRecord) := by
  intro l
  induction l with
  | nil => intro _; rfl
  | cons r rs ih =>
    intro h
    obtain ⟨hs, he⟩ := h r (by simp)
    cases hsv : r.salary with
    | none => exact absurd hsv hs
    | some sv =>
      cases hev : r.expenses with
      | none => exact absurd hev he
      | some ev =>
        simp only [serializeRecords, hsv, hev, ih fun r' hr' => h r' (by simp [hr'])]
        simp [serializeRecord, hsv, hev]

theorem vnr_serializeRecord (r : PyRecord) (s e2 : Int) (hm : r.month ≠ none)
    (hs : r.salary = some (.VInt s)) (hs0 : 0 ≤ s)
    (he : r.expenses = some (.VInt e2)) (he0 : 0 ≤ e2) :
    validate_and_normalize_record (serializeRecord r) = .ok r := by
  obtain ⟨rm, rsal, rexp⟩ := r
  simp only [] at hs he hm
  subst hs
  subst he
  unfold validate_and_normalize_record serializeRecord
  simp only [Option.getD_some]
  rw [if_neg hm]
  have hps : pyStrOfValue (.VInt s) = intToString s := rfl
  have hpe : pyStrOfValue (.VInt e2) = intToString e2 := rfl
  rw [hps, hpe]
  simp only [pyIntOfValue_intToString s hs0, pyIntOfValue_intToString e2 he0]

theorem filterMap_vnr (l : List PyRecord)
    (h : ∀ r ∈ l, validate_and_normalize_record (serializeRecord r) = .ok r) :
    ((l.map serializeRecord).filterMap
        fun r => (validate_and_normalize_record r).toOption) = l := by
  induction l with
  | nil => rfl
  | cons r rs ih =>
    simp only [List.map_cons, List.filterMap_cons]
    rw [h r (by simp)]
    exact congrArg (r :: ·) (ih fun r' hr' => h r' (by simp [hr']))

/-- C7:  Round-trip persistence: for a normalized dataset (every
record has a string month and non-negative integer salary/expenses, the
bank balance is an integer), `save_data` writes the two numeric fields
as decimal-digit strings, and `load_data` on that serialized dict
reproduces exactly the original records (the digit strings coerced back
to the same integers) and the same bank balance. -/
theorem save_load_round_trip (d : BudgetData) (b : Int)
    (hb : d.bank_balance = .VInt b)
    (hrec : ∀ r ∈ d.monthly_records,
      (∃ ms, r.month = some (.VStr ms)) ∧
      (∃ s, r.salary = some (.VInt s) ∧ 0 ≤ s) ∧
      (∃ e2, r.expenses = some (.VInt e2) ∧ 0 ≤ e2)) :
    save_data d =
      some ⟨some (d.monthly_records.map serializeRecord), some (.VInt b), none⟩ ∧
    (∀ r' ∈ d.monthly_records.map serializeRecord,
      ∃ ds es : String, r'.salary = some (.VStr ds) ∧ ds.toList.all isDigitChar = true ∧
        r'.expenses = some (.VStr es) ∧ es.toList.all isDigitChar = true) ∧
    loadDataParsed ⟨some (d.monthly_records.map serializeRecord), some (.VInt b), none⟩ =
      ⟨some d.monthly_records, some (.VInt b), none⟩ := by
  have hvnr : ∀ r ∈ d.monthly_records,
      validate_and_normalize_record (serializeRecord r) = .ok r := by
    intro r hr
    obtain ⟨⟨ms, hm⟩, ⟨s, hs, hs0⟩, ⟨e2, he, he0⟩⟩ := hrec r hr
    exact vnr_serializeRecord r s e2 (by rw [hm]; simp) hs hs0 he he0
  refine ⟨?_, ?_, ?_⟩
  · unfold save_data
    rw [serializeRecords_eq _ fun r hr => ?_, hb]
    obtain ⟨-, ⟨s, hs, -⟩, ⟨e2, he, -⟩⟩ := hrec r hr
    exact ⟨by rw [hs]; simp, by rw [he]; simp⟩
  · intro r' hr'
    rw [List.mem_map] at hr'
    obtain ⟨r, hr, hser⟩ := hr'
    obtain ⟨-, ⟨s, hs, hs0⟩, ⟨e2, he, he0⟩⟩ := hrec r hr
    subst hser
    refine ⟨intToString s, intToString e2, ?_, ?_, ?_, ?_⟩
    · simp [serializeRecord, hs, pyStrOfValue]
    · unfold intToString
      rw [if_neg (by omega)]
      exact natToChars_digits s.toNat
    · simp [serializeRecord, he, pyStrOfValue]
    · unfold intToString
      rw [if_neg (by omega)]
      exact natToChars_digits e2.toNat
  · unfold loadDataParsed
    rw [if_neg (by simp)]
    rw [if_neg (by simp), if_neg (by simp)]
    simp only [validate_and_normalize_data, Option.getD_some, pyIntOfValue]
    rw [filterMap_vnr _ hvnr]

theorem save_load_round_trip_witness :
    save_data ⟨[⟨some (.VStr "03/25"), some (.VInt 1000), some (.VInt 250)⟩], .VInt 9⟩ =
      some ⟨some ([⟨some (.VStr "03/25"), some (.VInt 1000), some (.VInt 250)⟩].map
              serializeRecord), some (.VInt 9), none⟩ ∧
    loadDataParsed
        ⟨some ([⟨some (.VStr "03/25"), some (.VInt 1000), some (.VInt 250)⟩].map
            serializeRecord), some (.VInt 9), none⟩ =
      ⟨some [⟨some (.VStr "03/25"), some (.VInt 1000), some (.VInt 250)⟩],
       some (.VInt 9), none⟩ :=
  ⟨(save_load_round_trip
      ⟨[⟨some (.VStr "03/25"), some (.VInt 1000), some (.VInt 250)⟩], .VInt 9⟩ 9
      rfl (fun r hr => by
        simp only [List.mem_singleton] at hr
        subst hr
        exact ⟨⟨"03/25", rfl⟩, ⟨1000, rfl, by norm_num⟩, ⟨250, rfl, by norm_num⟩⟩)).1,
   (save_load_round_trip
      ⟨[⟨some (.VStr "03/25"), some (.VInt 1000), some (.VInt 250)⟩], .VInt 9⟩ 9
      rfl (fun r hr => by
        simp only [List.mem_singleton] at hr
        subst hr
        exact ⟨⟨"03/25", rfl⟩, ⟨1000, rfl, by norm_num⟩, ⟨250, rfl, by norm_num⟩⟩)).2.2⟩

/-! ### Exactness bounds of `ensure_valid_financial_input` (C2) -/

theorem takeWhile_eq_self_of_all (p : Char → Bool) :
    ∀ l : List Char, (∀ c ∈ l, p c = true) → l.takeWhile p = l := by
  intro l
  induction l with
  | nil => intro _; rfl
  | cons c cs ih =>
    intro h
    rw [List.takeWhile_cons, if_pos (h c (by simp))]
    rw [ih fun c' h' => h c' (by simp [h'])]

theorem dropWhile_eq_nil_of_all (p : Char → Bool) :
    ∀ l : List Char, (∀ c ∈ l, p c = true) → l.dropWhile p = [] := by
  intro l
  induction l with
  | nil => intro _; rfl
  | cons c cs ih =>
    intro h
    rw [List.dropWhile_cons, if_pos (h c (by simp))]
    exact ih fun c' h' => h c' (by simp [h'])

theorem lowerChar_digit (c : Char) (h : isDigitChar c = true) : lowerChar c = c := by
  simp only [isDigitChar, decide_eq_true_eq] at h
  unfold lowerChar
  rw [if_neg (by omega)]

theorem lowerList_digits (l : List Char) (h : l.all isDigitChar = true) :
    lowerList l = l := by
  rw [List.all_eq_true] at h
  unfold lowerList
  induction l with
  | nil => rfl
  | cons c cs ih =>
    rw [List.map_cons, lowerChar_digit c (h c (by simp))]
    rw [ih fun c' h' => h c' (by simp [h'])]

theorem twoPow_eq (m : Nat) : twoPow m = 2 ^ m := by
  induction m with
  | zero => rfl
  | succ k ih => rw [twoPow, ih, pow_succ]; ring

theorem twoPow_pos (m : Nat) : 0 < twoPow m := by
  rw [twoPow_eq]; positivity

theorem expUp_bounds :
    ∀ (f num den : Nat), 0 < den → den ≤ num → num < den * twoPow f →
      den * twoPow (expUp f num den) ≤ num ∧
        num < den * twoPow (expUp f num den + 1) := by
  intro f
  induction f with
  | zero =>
    intro num den hden hle hlt
    rw [twoPow, Nat.mul_one] at hlt
    omega
  | succ f ih =>
    intro num den hden hle hlt
    by_cases hsmall : num < 2 * den
    · simp only [expUp, hsmall, if_true]
      constructor
      · rw [twoPow, Nat.mul_one]; exact hle
      · rw [show twoPow 1 = 2 from rfl]; omega
    · simp only [expUp, hsmall, if_false]
      have h2 : 2 * den ≤ num := by omega
      have h3 : num < 2 * den * twoPow f := by
        rw [twoPow] at hlt
        calc num < den * (2 * twoPow f) := hlt
          _ = 2 * den * twoPow f := by ring
      obtain ⟨hlo, hhi⟩ := ih num (2 * den) (by omega) h2 h3
      constructor
      · calc den * twoPow (expUp f num (2 * den) + 1)
            = 2 * den * twoPow (expUp f num (2 * den)) := by rw [twoPow]; ring
          _ ≤ num := hlo
      · calc num < 2 * den * twoPow (expUp f num (2 * den) + 1) := hhi
          _ = den * twoPow (expUp f num (2 * den) + 1 + 1) := by
              simp only [twoPow_eq, pow_succ]; ring

theorem roundScaled_exact (a d : Nat) (hd : 0 < d) : roundScaled (a * d) d = a := by
  unfold roundScaled
  rw [Nat.mul_mod_left, Nat.mul_div_cancel _ hd]
  simp [hd]

theorem pyIntOfFloat_roundMag_nat (n : Nat) (hn : n ≤ twoPow 53) :
    pyIntOfFloat (roundMag false n 1) = .ok (n : Int) := by
  by_cases h0 : n = 0
  · subst h0; decide
  · have h1 : (1 : Nat) ≤ n := by omega
    have hbounds := expUp_bounds n n 1 (by omega) h1
      (by rw [Nat.one_mul, twoPow_eq]; exact Nat.lt_two_pow n)
    rw [Nat.one_mul, Nat.one_mul] at hbounds
    set k := expUp n n 1 with hk
    have hk53 : k ≤ 53 := by
      by_contra hgt
      have hmono : twoPow 54 ≤ twoPow k := by
        simp only [twoPow_eq]
        exact Nat.pow_le_pow_right (by omega) (by omega)
      have h2 : twoPow 53 < twoPow 54 := by
        simp only [twoPow_eq]
        exact Nat.pow_lt_pow_right (by omega) (by omega)
      omega
    have h_e : roundExponent n 1 = (k : Int) := by
      unfold roundExponent
      rw [if_pos h1]
    have h_p : roundPrec n 1 = (k : Int) - 52 := by
      unfold roundPrec
      rw [h_e, if_pos (by omega)]
    by_cases hk52 : 52 ≤ k
    · -- `p ≥ 0`: here `k = 52` or `k = 53`
      have hp0 : (0 : Int) ≤ (k : Int) - 52 := by omega
      rcases (by omega : k = 52 ∨ k = 53) with hkv | hkv
      · -- k = 52: the value is its own mantissa
        have htn : ((k : Int) - 52).toNat = 0 := by omega
        have h_m : roundMantissa n 1 = n := by
          unfold roundMantissa
          rw [h_p, if_pos hp0, htn]
          show roundScaled n (1 * twoPow 0) = n
          rw [Nat.one_mul]
          simpa using roundScaled_exact n 1 (by omega)
        have hover : ¬ twoPow 1024 ≤ n * twoPow ((k : Int) - 52).toNat := by
          rw [htn, show twoPow 0 = 1 from rfl, Nat.mul_one]
          have hlt : twoPow 53 < twoPow 1024 := by
            simp only [twoPow_eq]
            exact Nat.pow_lt_pow_right (by omega) (by omega)
          omega
        unfold roundMag
        rw [if_neg h0]
        simp only [h_p, h_m, if_pos hp0]
        rw [if_neg (by simpa using hover)]
        unfold pyIntOfFloat
        simp only [if_pos hp0, htn]
        simp [twoPow]
      · -- k = 53: then n = 2^53 and one halving is exact
        have hn53 : n = twoPow 53 := by
          have := hbounds.1
          rw [hkv] at this
          omega
        have htn : ((k : Int) - 52).toNat = 1 := by omega
        have hsplit : n = twoPow 52 * twoPow 1 := by
          rw [hn53]
          simp only [twoPow_eq]
          rw [← pow_add]
        have h_m : roundMantissa n 1 = twoPow 52 := by
          unfold roundMantissa
          rw [h_p, if_pos hp0, htn, Nat.one_mul]
          rw [hsplit]
          exact roundScaled_exact (twoPow 52) (twoPow 1) (twoPow_pos 1)
        have hover : ¬ twoPow 1024 ≤ twoPow 52 * twoPow ((k : Int) - 52).toNat := by
          rw [htn]
          have heq : twoPow 52 * twoPow 1 = twoPow 53 := by
            simp only [twoPow_eq]
            rw [← pow_add]
          have hlt : twoPow 53 < twoPow 1024 := by
            simp only [twoPow_eq]
            exact Nat.pow_lt_pow_right (by omega) (by omega)
          omega
        unfold roundMag
        rw [if_neg h0]
        simp only [h_p, h_m, if_pos hp0]
        rw [if_neg (by simpa using hover)]
        unfold pyIntOfFloat
        simp only [if_pos hp0, htn]
        rw [show twoPow 52 * twoPow 1 = n from hsplit.symm]
        simp
    · -- `p < 0`: scale up by `2^(52-k)`, which divides out exactly
      have hpneg : ¬ (0 : Int) ≤ (k : Int) - 52 := by omega
      have htn : (-((k : Int) - 52)).toNat = 52 - k := by omega
      have h_m : roundMantissa n 1 = n * twoPow (52 - k) := by
        unfold roundMantissa
        rw [h_p, if_neg hpneg, htn]
        simpa using roundScaled_exact (n * twoPow (52 - k)) 1 (by omega)
      have hover : ¬ twoPow (1024 + (52 - k)) ≤ n * twoPow (52 - k) := by
        have hnlt : n < twoPow (k + 1) := hbounds.2
        have hmul : n * twoPow (52 - k) < twoPow (k + 1) * twoPow (52 - k) :=
          (Nat.mul_lt_mul_right (twoPow_pos _)).mpr hnlt
        have hcollapse : twoPow (k + 1) * twoPow (52 - k) = twoPow (53 : Nat) := by
          simp only [twoPow_eq]
          rw [← pow_add]
          congr 1
          omega
        have hbig : twoPow 53 ≤ twoPow (1024 + (52 - k)) := by
          simp only [twoPow_eq]
          exact Nat.pow_le_pow_right (by omega) (by omega)
        omega
      unfold roundMag
      rw [if_neg h0]
      simp only [h_p, h_m, if_neg hpneg]
      rw [if_neg (by simpa [htn] using hover)]
      unfold pyIntOfFloat
      simp only [if_neg hpneg, htn]
      rw [Nat.mul_div_cancel _ (twoPow_pos (52 - k))]
      simp

theorem pyFloatOfChars_digits (l : List Char) (hd : l.all isDigitChar = true)
    (hne : l ≠ []) :
    pyFloatOfChars l = some (roundMag false (natOfDigits l) 1) := by
  obtain ⟨c, cs, rfl⟩ : ∃ c cs, l = c :: cs := by
    cases l with
    | nil => exact absurd rfl hne
    | cons c cs => exact ⟨c, cs, rfl⟩
  have hcd : isDigitChar c = true := by
    rw [List.all_cons, Bool.and_eq_true] at hd
    exact hd.1
  have hplus : ((c :: cs).head? = some '+') = False := by
    simp only [List.head?_cons, Option.some_inj, eq_iff_iff, iff_false]
    intro h
    subst h
    exact absurd hcd (by decide)
  have hminus : ((c :: cs).head? = some '-') = False := by
    simp only [List.head?_cons, Option.some_inj, eq_iff_iff, iff_false]
    intro h
    subst h
    exact absurd hcd (by decide)
  have hinf : ((c :: cs) = "inf".toList) = False := by
    simp only [eq_iff_iff, iff_false]
    intro h
    rw [h] at hd
    exact absurd hd (by decide)
  have hinfinity : ((c :: cs) = "infinity".toList) = False := by
    simp only [eq_iff_iff, iff_false]
    intro h
    rw [h] at hd
    exact absurd hd (by decide)
  have hnan : ((c :: cs) = "nan".toList) = False := by
    simp only [eq_iff_iff, iff_false]
    intro h
    rw [h] at hd
    exact absurd hd (by decide)
  have hdall := List.all_eq_true.mp hd
  have hE : (c :: cs).takeWhile (fun x => decide (¬ (x = 'e' ∨ x = 'E'))) = c :: cs := by
    apply takeWhile_eq_self_of_all
    intro x hx
    have hxd : isDigitChar x = true := hdall x hx
    simp only [decide_eq_true_eq]
    rintro (h | h) <;> (subst h; exact absurd hxd (by decide))
  have hE2 : (c :: cs).dropWhile (fun x => decide (¬ (x = 'e' ∨ x = 'E'))) = [] := by
    apply dropWhile_eq_nil_of_all
    intro x hx
    have hxd : isDigitChar x = true := hdall x hx
    simp only [decide_eq_true_eq]
    rintro (h | h) <;> (subst h; exact absurd hxd (by decide))
  have hDot : (c :: cs).takeWhile (fun x => decide (¬ x = '.')) = c :: cs := by
    apply takeWhile_eq_self_of_all
    intro x hx
    have hxd : isDigitChar x = true := hdall x hx
    simp only [decide_eq_true_eq]
    intro h
    subst h
    exact absurd hxd (by decide)
  have hDot2 : (c :: cs).dropWhile (fun x => decide (¬ x = '.')) = [] := by
    apply dropWhile_eq_nil_of_all
    intro x hx
    have hxd : isDigitChar x = true := hdall x hx
    simp only [decide_eq_true_eq]
    intro h
    subst h
    exact absurd hxd (by decide)
  unfold pyFloatOfChars
  rw [stripWs_of_digits _ hd]
  simp only [hplus, hminus, or_self, or_false, false_or, if_false, decide_False,
             lowerList_digits _ hd, hinf, hinfinity, hnan, hE, hE2, hDot, hDot2]
  simp only [List.tail_nil, List.isEmpty_nil, List.isEmpty_cons, if_true, Bool.false_and,
             Bool.and_true, Bool.true_and, Bool.not_false, Bool.and_self, List.filter_nil]
  rw [if_pos (by simp [validGroup_of_digits _ (by simp) hd])]
  unfold groupVal
  rw [filter_underscore_of_digits _ hd]
  simp [show tenPow 0 = 1 from rfl, show natOfDigits [] = 0 from rfl]

/-- C2 (corrected; see the counterexample below).
`ensure_valid_financial_input` returns exactly the cleaned integer when
the cleaned form is a digit string denoting a value of at most `2^53`
(the range in which `int(float(...))` is lossless); it fails with
`ValueError` (InvalidAmount) when the cleaned form is not
float-parseable, or when the parsed value truncates to a negative
integer; but a cleaned form that parses to an infinite float (an
explicit `inf`, or a magnitude beyond the binary64 range) makes it raise
an uncaught `OverflowError` instead of failing with InvalidAmount. -/
theorem ensure_valid_financial_input_bounds :
    (∀ l : List Char, (cleanAmount l).all isDigitChar = true → cleanAmount l ≠ [] →
      natOfDigits (cleanAmount l) ≤ 2 ^ 53 →
      ensure_valid_financial_input l = .ok (natOfDigits (cleanAmount l) : Int)) ∧
    (∀ l : List Char, pyFloatOfChars (cleanAmount l) = none →
      ensure_valid_financial_input l = .error .valueError) ∧
    (∀ (l : List Char) (neg : Bool) (m : Nat) (p : Int) (t : Int),
      pyFloatOfChars (cleanAmount l) = some (.fin neg m p) →
      pyIntOfFloat (.fin neg m p) = .ok t → t < 0 →
      ensure_valid_financial_input l = .error .valueError) ∧
    (∀ (l : List Char) (neg : Bool),
      pyFloatOfChars (cleanAmount l) = some (.inf neg) →
      ensure_valid_financial_input l = .error .overflowError) := by
  refine ⟨?_, ?_, ?_, ?_⟩
  · intro l h1 h2 h3
    unfold ensure_valid_financial_input
    rw [pyFloatOfChars_digits _ h1 h2]
    simp only []
    rw [pyIntOfFloat_roundMag_nat _ (by rw [twoPow_eq]; exact h3)]
    simp only []
    rw [if_neg (by omega)]
  · intro l h
    unfold ensure_valid_financial_input
    rw [h]
  · intro l neg m p t hp ht hlt
    unfold ensure_valid_financial_input
    rw [hp]
    simp only []
    rw [ht]
    simp only []
    rw [if_pos hlt]
  · intro l neg hp
    unfold ensure_valid_financial_input
    rw [hp]
    rfl

theorem ensure_valid_financial_input_witness :
    ensure_valid_financial_input "1,000 ".toList =
      .ok (natOfDigits (cleanAmount "1,000 ".toList) : Int) ∧
    (natOfDigits (cleanAmount "1,000 ".toList) : Int) = 1000 ∧
    ensure_valid_financial_input "inf".toList = .error .overflowError :=
  ⟨ensure_valid_financial_input_bounds.1 "1,000 ".toList
      (by decide) (by decide) (by decide),
   by decide,
   ensure_valid_financial_input_bounds.2.2.2 "inf".toList false (by decide)⟩

/-- C2, counterexample:  Exactness fails above `2^53`: the cleaned
digit string `"9007199254740993"` denotes `2^53 + 1`, a non-negative
integer, but `int(float(...))` rounds it to the nearest binary64 and
the function succeeds with the *different* integer `2^53`
(`9007199254740992`) — so the function does not return "that exact
integer" for every decimal digit string. -/
theorem ensure_exactness_counterexample :
    ensure_valid_financial_input "9007199254740993".toList =
      .ok 9007199254740992 ∧
    (9007199254740992 : Int) ≠ 9007199254740993 := by
  constructor
  · decide
  · decide

end BudgetApp
